import Mathlib

/-!
Shallow embedding of the `dynobj` dynamic object runtime (single-header C++
library `dynobject.hpp`) and verification of its specification.

Modelling conventions:
* `size_t` is modelled as `Nat`; the only arithmetic the code performs on
  offsets is the guarded `offset_ + 1` in `getPropertyCount`, which the C++
  code protects with a sentinel check against `(size_t)(-1)`, so plain `Nat`
  with `SENTINEL = 2^64 - 1` reproduces the C++ behaviour exactly.
* Heap-allocated `Shape` nodes are modelled by a store `List Shape` inside the
  factory; a shape's store index plays the role of its address, so pointer
  identity is index equality.  `weak_ptr` transition handles are modelled as
  always lockable, which matches runs in which the objects stay live.
* `std::any` cells are modelled by the tagged type `Val`; `std::function`
  method bodies are modelled by the small command type `MCode`, interpreted by
  `runMethod` (a method receives `self` and the argument list and produces an
  untyped result, exactly as in the C++ signature).
* Reads `values_[offset]` are modelled with `List.getD`; bounds safety is
  proved as a theorem rather than assumed.
* The single-threaded build (`DYNOBJECT_MULTITHREADED` undefined) is modelled:
  all locks are no-ops there.
-/

namespace DynObj

/-- value of `static_cast<size_t>(-1)`, the root shape's sentinel offset. -/
def SENTINEL : Nat := 2 ^ 64 - 1

/-- mirrors `ObjectFactory::Shape`: parent link, the key this node adds, the
offset the key is stored at, and the cached transitions (assoc list standing
for the `unordered_map<size_t, weak_ptr<Shape>>`, child given by store index). -/
structure Shape where
  parent : Option Nat
  property_key : Nat
  offset : Nat
  transitions : List (Nat × Nat)
deriving Repr, DecidableEq

/-- mirrors the root-shape constructor `Shape()`. -/
def rootShape : Shape := ⟨none, 0, SENTINEL, []⟩

instance : Inhabited Shape := ⟨rootShape⟩

/-- mirrors `Shape::getPropertyCount`. -/
def Shape.getPropertyCount (s : Shape) : Nat :=
  if s.offset = SENTINEL then 0 else s.offset + 1

/-- mirrors `Shape::getNewOffset`. -/
def Shape.getNewOffset (s : Shape) : Nat := s.offset

/-- mirrors `ObjectFactory`: the shape store (index 0 is `root_shape_`), and
the interner state `id_to_str_` / `str_to_id_`. -/
structure Factory where
  shapes : List Shape
  id_to_str : List String
  str_to_id : List (String × Nat)
deriving Repr, DecidableEq

/-- mirrors the `ObjectFactory` constructor: a store holding only the root. -/
def Factory.new : Factory := ⟨[rootShape], [], []⟩

/-- the shape at store index `i` (a dereference of the shape's address). -/
def Factory.shapeAt (f : Factory) (i : Nat) : Shape :=
  f.shapes.getD i rootShape

/-- fuel-indexed parent-chain walk; mirrors the loop in `Shape::getOffset`.
The C++ loop terminates because the root's parent is null; here parent links
are store indices, so a fuel argument makes the walk total.  With the store
invariant `ParentLT` (parents have smaller indices, as in any store built by
`transition`) fuel `idx + 1` never runs out, so the model coincides with the
C++ loop. -/
def getOffsetFuel (shapes : List Shape) : Nat → Nat → Nat → Option Nat
  | 0, _, _ => none
  | fuel + 1, idx, key =>
    let s := shapes.getD idx rootShape
    match s.parent with
    | none => none
    | some p =>
      if s.property_key = key then some s.offset
      else getOffsetFuel shapes fuel p key

/-- mirrors `Shape::getOffset(key)` for the shape at store index `idx`. -/
def Factory.getOffset (f : Factory) (idx key : Nat) : Option Nat :=
  getOffsetFuel f.shapes (idx + 1) idx key

/-- mirrors `ObjectFactory::transition`: consult the cache, otherwise make a
shape with parent `fr`, key `key`, offset `parent.getPropertyCount()`, cache
and return it.  Returns the evolved factory and the child's store index. -/
def Factory.transition (f : Factory) (fr key : Nat) : Factory × Nat :=
  let s := f.shapeAt fr
  match s.transitions.lookup key with
  | some c => (f, c)
  | none =>
    let idx := f.shapes.length
    let ns : Shape := ⟨some fr, key, s.getPropertyCount, []⟩
    ({ f with
        shapes := (f.shapes.set fr { s with transitions := (key, idx) :: s.transitions }) ++ [ns] },
     idx)

/-- mirrors `ObjectFactory::intern`. -/
def Factory.intern (f : Factory) (s : String) : Factory × Nat :=
  match f.str_to_id.lookup s with
  | some i => (f, i)
  | none =>
    let id := f.id_to_str.length
    ({ f with id_to_str := f.id_to_str ++ [s], str_to_id := (s, id) :: f.str_to_id }, id)

/-- mirrors `ObjectFactory::getString`: in-range identifiers map to their
interned string, out-of-range ones to the literal `<?>`. -/
def Factory.getString (f : Factory) (id : Nat) : String :=
  if id < f.id_to_str.length then f.id_to_str.getD id "" else "<?>"

mutual
/-- models the `std::any` value cell: empty (default-constructed `any`) or a
value with its dynamic type tag.  `vMethod` holds a `DynObject::Method` body. -/
inductive Val where
  | empty : Val
  | vInt : Int → Val
  | vStr : String → Val
  | vBool : Bool → Val
  | vMethod : MCode → Val
/-- models a `DynObject::Method` body (`std::function<any(DynObject&, Args)>`):
either return a fixed value or return one of the call arguments. -/
inductive MCode where
  | ret : Val → MCode
  | retArg : Nat → MCode
end

/-- the dynamic type tags a typed `get<T>` can request. -/
inductive VTag where
  | tInt : VTag
  | tStr : VTag
  | tBool : VTag
  | tMethod : VTag
deriving Repr, DecidableEq

/-- dynamic tag of a cell; the empty `any` has none. -/
def Val.tag : Val → Option VTag
  | .empty => none
  | .vInt _ => some .tInt
  | .vStr _ => some .tStr
  | .vBool _ => some .tBool
  | .vMethod _ => some .tMethod

/-- a template instantiation of `get<T>` / `call<R>`: either the untyped view
`T = std::any` or a typed view with tag `t`. -/
inductive Req where
  | anyR : Req
  | typed : VTag → Req
deriving Repr, DecidableEq

/-- mirrors `ObjectFactory::DynObject`: current shape (store index), value
array, optional prototype.  The prototype is nested structurally, which
models an acyclic prototype chain (cycles are the host's responsibility per
the spec). -/
inductive DynObject where
  | mk : Nat → List Val → Option DynObject → DynObject

/-- current shape (store index) of an object. -/
def DynObject.shape : DynObject → Nat
  | .mk s _ _ => s

/-- value array of an object. -/
def DynObject.values : DynObject → List Val
  | .mk _ v _ => v

/-- prototype link of an object. -/
def DynObject.prototype : DynObject → Option DynObject
  | .mk _ _ p => p

/-- mirrors `ObjectFactory::createObject`: shape is the root (index 0), no
values, no prototype. -/
def Factory.createObject : DynObject := .mk 0 [] none

/-- mirrors `std::vector::resize(n)`: truncate or pad with default-constructed
(empty) `any` cells. -/
def listResize (l : List Val) (n : Nat) : List Val :=
  l.take n ++ List.replicate (n - l.length) Val.empty

/-- mirrors `DynObject::set`: overwrite in place when the key resolves,
otherwise transition the shape, resize the value array to the new property
count and write at the new offset. -/
def DynObject.set (f : Factory) (key : Nat) (v : Val) : DynObject → Factory × DynObject
  | .mk shape values proto =>
    match f.getOffset shape key with
    | some off => (f, .mk shape (values.set off v) proto)
    | none =>
      let fs := f.transition shape key
      let ns := fs.1.shapeAt fs.2
      (fs.1, .mk fs.2 ((listResize values ns.getPropertyCount).set ns.getNewOffset v) proto)

/-- mirrors `DynObject::get<T>`: resolve the offset on the own shape; on a hit
the untyped view returns the cell as-is and a typed view checks the tag; on a
miss recurse into the prototype, failing with no-such-property at a chain end. -/
def DynObject.get (f : Factory) (r : Req) (key : Nat) : DynObject → Except String Val
  | .mk shape values proto =>
    match f.getOffset shape key with
    | some off =>
      let cell := values.getD off Val.empty
      match r with
      | .anyR => .ok cell
      | .typed t =>
        if cell.tag = some t then .ok cell
        else .error "type mismatch for property"
    | none =>
      match proto with
      | some p => DynObject.get f r key p
      | none => .error "no such property"

/-- interpreter for method bodies: a method receives `(self, args)` and
produces an untyped result, possibly evolved factory and self. -/
def runMethod (f : Factory) (o : DynObject) (args : List Val) : MCode → Val × Factory × DynObject
  | .ret v => (v, f, o)
  | .retArg i => (args.getD i Val.empty, f, o)

/-- mirrors `DynObject::call<R>`: resolve the name via `get<Method>`, invoke
with `(self, args)`, then pass the untyped result through (`R = any`) or apply
the typed-view check.  The `.ok` cell of a `get<Method>` always carries a
method body, so the last branch is dead code (proved in `get_typed_tag`). -/
def DynObject.call (f : Factory) (r : Req) (name : Nat) (args : List Val)
    (o : DynObject) : Except String Val × Factory × DynObject :=
  match o.get f (Req.typed VTag.tMethod) name with
  | .error e => (.error e, f, o)
  | .ok (Val.vMethod m) =>
    let out := runMethod f o args m
    match r with
    | .anyR => (.ok out.1, out.2.1, out.2.2)
    | .typed t =>
      if out.1.tag = some t then (.ok out.1, out.2.1, out.2.2)
      else (.error "type mismatch for method return value", out.2.1, out.2.2)
  | .ok _ => (.error "type mismatch for property", f, o)

/-- runs a list of `set` operations on one object, threading the factory. -/
def runSets (f : Factory) (o : DynObject) : List (Nat × Val) → Factory × DynObject
  | [] => (f, o)
  | (k, v) :: rest =>
    let fo := o.set f k v
    runSets fo.1 fo.2 rest

/-- fuel-indexed insertion history of the shape at index `idx`: the keys on
the root-to-`idx` parent chain in insertion (root-first) order. -/
def pathFuel (shapes : List Shape) : Nat → Nat → List Nat
  | 0, _ => []
  | fuel + 1, idx =>
    let s := shapes.getD idx rootShape
    match s.parent with
    | none => []
    | some p => pathFuel shapes fuel p ++ [s.property_key]

/-- insertion history of the shape at store index `idx`. -/
def Factory.pathOf (f : Factory) (idx : Nat) : List Nat :=
  pathFuel f.shapes (idx + 1) idx

/-! ### List helper lemmas -/

theorem getD_append_lt {α : Type} (l m : List α) (i : Nat) (d : α) (h : i < l.length) :
    (l ++ m).getD i d = l.getD i d := by
  induction l generalizing i with
  | nil => simp at h
  | cons a t ih =>
    cases i with
    | zero => rfl
    | succ j => simpa using ih j (by simpa using h)

theorem getD_append_ge {α : Type} (l m : List α) (i : Nat) (d : α) (h : l.length ≤ i) :
    (l ++ m).getD i d = m.getD (i - l.length) d := by
  induction l generalizing i with
  | nil => simp
  | cons a t ih =>
    cases i with
    | zero => simp at h
    | succ j => simpa using ih j (by simpa using h)

theorem getD_ge {α : Type} (l : List α) (i : Nat) (d : α) (h : l.length ≤ i) :
    l.getD i d = d := by
  induction l generalizing i with
  | nil => rfl
  | cons a t ih =>
    cases i with
    | zero => simp at h
    | succ j => simpa using ih j (by simpa using h)

theorem getD_set_self {α : Type} (l : List α) (i : Nat) (x d : α) (h : i < l.length) :
    (l.set i x).getD i d = x := by
  induction l generalizing i with
  | nil => simp at h
  | cons a t ih =>
    cases i with
    | zero => rfl
    | succ j => simpa using ih j (by simpa using h)

theorem getD_set_ne {α : Type} (l : List α) (i j : Nat) (x d : α) (h : i ≠ j) :
    (l.set i x).getD j d = l.getD j d := by
  induction l generalizing i j with
  | nil => rfl
  | cons a t ih =>
    cases i with
    | zero => cases j with
      | zero => exact absurd rfl h
      | succ j2 => rfl
    | succ i2 => cases j with
      | zero => rfl
      | succ j2 => simpa using ih i2 j2 (fun hc => h (by rw [hc]))

theorem getD_replicate {α : Type} (n i : Nat) (x d : α) (h : i < n) :
    (List.replicate n x).getD i d = x := by
  induction n generalizing i with
  | zero => simp at h
  | succ m ih =>
    cases i with
    | zero => rfl
    | succ j =>
      rw [List.replicate_succ]
      simpa using ih j (by omega)

theorem lookup_cons_ne {κ α : Type} [BEq κ] [LawfulBEq κ] (l : List (κ × α)) (k k' : κ)
    (v : α) (h : k' ≠ k) :
    ((k, v) :: l).lookup k' = l.lookup k' := by
  have hb : (k' == k) = false := beq_eq_false_iff_ne.mpr h
  simp [List.lookup, hb]

theorem lookup_cons_self {κ α : Type} [BEq κ] [LawfulBEq κ] (l : List (κ × α)) (k : κ)
    (v : α) :
    ((k, v) :: l).lookup k = some v := by
  simp [List.lookup]

/-! ### Store invariants -/

/-- parent links point to strictly smaller store indices.  This holds for any
store grown by `transition` from the fresh factory and is what makes the
fuel-indexed chain walks coincide with the C++ pointer walks. -/
def ParentLT (shapes : List Shape) : Prop :=
  ∀ i, i < shapes.length → ∀ p, (shapes.getD i rootShape).parent = some p → p < i

/-- the store invariant of a factory: index 0 is the root shape; every other
shape has a smaller-index parent and the offset the `Shape` constructor gives
it; every cached transition points to a child of the caching shape with the
cached key. -/
structure FactoryInv (f : Factory) : Prop where
  ne : 0 < f.shapes.length
  root_parent : (f.shapeAt 0).parent = none
  root_offset : (f.shapeAt 0).offset = SENTINEL
  root_key : (f.shapeAt 0).property_key = 0
  parent_lt : ParentLT f.shapes
  child_ok : ∀ i, i < f.shapes.length → i ≠ 0 →
    ∃ p, (f.shapeAt i).parent = some p ∧
      (f.shapeAt i).offset = (f.shapeAt p).getPropertyCount
  tr_ok : ∀ i, i < f.shapes.length → ∀ k c,
    (f.shapeAt i).transitions.lookup k = some c →
      c < f.shapes.length ∧ (f.shapeAt c).parent = some i ∧
        (f.shapeAt c).property_key = k

theorem factoryInv_new : FactoryInv Factory.new := by
  refine ⟨by simp [Factory.new], rfl, rfl, rfl, ?_, ?_, ?_⟩
  · intro i hi p hp
    have h0 : i = 0 := by simp [Factory.new] at hi; omega
    subst h0
    simp [Factory.new, Factory.shapeAt, List.getD, rootShape] at hp
  · intro i hi h0
    have hz : i = 0 := by simp [Factory.new] at hi; omega
    exact absurd hz h0
  · intro i hi k c hc
    have h0 : i = 0 := by simp [Factory.new] at hi; omega
    subst h0
    simp [Factory.new, Factory.shapeAt, List.getD, rootShape, List.lookup] at hc

/-! ### Fuel congruence and unfolding for the chain walks -/

theorem getOffsetFuel_congr {shapes : List Shape} (hP : ParentLT shapes) :
    ∀ f₁ f₂ idx key, idx < f₁ → idx < f₂ →
      getOffsetFuel shapes f₁ idx key = getOffsetFuel shapes f₂ idx key := by
  intro f₁
  induction f₁ with
  | zero => intro f₂ idx key h1 _; omega
  | succ n ih =>
    intro f₂ idx key h1 h2
    cases f₂ with
    | zero => omega
    | succ m =>
      simp only [getOffsetFuel]
      cases hpar : (shapes.getD idx rootShape).parent with
      | none => rfl
      | some p =>
        have hpi : p < idx := by
          by_cases hlen : idx < shapes.length
          · exact hP idx hlen p hpar
          · rw [getD_ge shapes idx rootShape (by omega)] at hpar
            simp [rootShape] at hpar
        dsimp only
        split_ifs
        · rfl
        · exact ih m p key (by omega) (by omega)

theorem getOffset_eq (f : Factory) (hP : ParentLT f.shapes) (idx key : Nat) :
    f.getOffset idx key =
      match (f.shapeAt idx).parent with
      | none => none
      | some p =>
        if (f.shapeAt idx).property_key = key
        then some (f.shapeAt idx).offset
        else f.getOffset p key := by
  show getOffsetFuel f.shapes (idx + 1) idx key = _
  simp only [getOffsetFuel, Factory.shapeAt]
  cases hpar : (f.shapes.getD idx rootShape).parent with
  | none => rfl
  | some p =>
    have hpi : p < idx := by
      by_cases hlen : idx < f.shapes.length
      · exact hP idx hlen p hpar
      · rw [getD_ge f.shapes idx rootShape (by omega)] at hpar
        simp [rootShape] at hpar
    dsimp only
    split_ifs
    · rfl
    · exact getOffsetFuel_congr hP idx (p + 1) p key (by omega) (by omega)

theorem pathFuel_congr {shapes : List Shape} (hP : ParentLT shapes) :
    ∀ f₁ f₂ idx, idx < f₁ → idx < f₂ →
      pathFuel shapes f₁ idx = pathFuel shapes f₂ idx := by
  intro f₁
  induction f₁ with
  | zero => intro f₂ idx h1 _; omega
  | succ n ih =>
    intro f₂ idx h1 h2
    cases f₂ with
    | zero => omega
    | succ m =>
      simp only [pathFuel]
      cases hpar : (shapes.getD idx rootShape).parent with
      | none => rfl
      | some p =>
        have hpi : p < idx := by
          by_cases hlen : idx < shapes.length
          · exact hP idx hlen p hpar
          · rw [getD_ge shapes idx rootShape (by omega)] at hpar
            simp [rootShape] at hpar
        dsimp only
        rw [ih m p (by omega) (by omega)]

theorem pathOf_eq (f : Factory) (hP : ParentLT f.shapes) (idx : Nat) :
    f.pathOf idx =
      match (f.shapeAt idx).parent with
      | none => []
      | some p => f.pathOf p ++ [(f.shapeAt idx).property_key] := by
  show pathFuel f.shapes (idx + 1) idx = _
  simp only [pathFuel, Factory.shapeAt]
  cases hpar : (f.shapes.getD idx rootShape).parent with
  | none => rfl
  | some p =>
    have hpi : p < idx := by
      by_cases hlen : idx < f.shapes.length
      · exact hP idx hlen p hpar
      · rw [getD_ge f.shapes idx rootShape (by omega)] at hpar
        simp [rootShape] at hpar
    dsimp only
    rw [pathFuel_congr hP idx (p + 1) p (by omega) (by omega)]
    rfl

/-! ### Effect of `transition` on the store -/

theorem getD_setapp_ne {α : Type} (l : List α) (fr i : Nat) (s' ns d : α)
    (hi : i < l.length) (hne : i ≠ fr) :
    ((l.set fr s') ++ [ns]).getD i d = l.getD i d := by
  rw [getD_append_lt _ _ _ _ (by simpa using hi)]
  exact getD_set_ne l fr i s' d (fun h => hne h.symm)

theorem getD_setapp_self {α : Type} (l : List α) (fr : Nat) (s' ns d : α)
    (hfr : fr < l.length) :
    ((l.set fr s') ++ [ns]).getD fr d = s' := by
  rw [getD_append_lt _ _ _ _ (by simpa using hfr)]
  exact getD_set_self l fr s' d hfr

theorem getD_setapp_last {α : Type} (l : List α) (fr : Nat) (s' ns d : α) :
    ((l.set fr s') ++ [ns]).getD l.length d = ns := by
  rw [getD_append_ge _ _ _ _ (by simp)]
  simp

theorem transition_hit (f : Factory) (fr key c : Nat)
    (hc : (f.shapeAt fr).transitions.lookup key = some c) :
    f.transition fr key = (f, c) := by
  simp [Factory.transition, hc]

theorem transition_miss (f : Factory) (fr key : Nat)
    (hc : (f.shapeAt fr).transitions.lookup key = none) :
    (f.transition fr key).1.shapes =
      (f.shapes.set fr
        { f.shapeAt fr with
            transitions := (key, f.shapes.length) :: (f.shapeAt fr).transitions }) ++
        [⟨some fr, key, (f.shapeAt fr).getPropertyCount, []⟩] ∧
    (f.transition fr key).2 = f.shapes.length := by
  constructor <;> simp [Factory.transition, hc]

/-- the store only grows and existing shapes keep their identity (parent, key,
offset) and their cached transitions; new cache entries may appear. -/
def Evolves (f g : Factory) : Prop :=
  f.shapes.length ≤ g.shapes.length ∧
  (∀ i, i < f.shapes.length →
    (g.shapeAt i).parent = (f.shapeAt i).parent ∧
    (g.shapeAt i).property_key = (f.shapeAt i).property_key ∧
    (g.shapeAt i).offset = (f.shapeAt i).offset) ∧
  (∀ i k c, i < f.shapes.length →
    (f.shapeAt i).transitions.lookup k = some c →
    (g.shapeAt i).transitions.lookup k = some c)

theorem evolves_refl (f : Factory) : Evolves f f :=
  ⟨le_refl _, fun _ _ => ⟨rfl, rfl, rfl⟩, fun _ _ _ _ h => h⟩

theorem evolves_trans {f g h : Factory} (h1 : Evolves f g) (h2 : Evolves g h) :
    Evolves f h := by
  obtain ⟨l1, c1, t1⟩ := h1
  obtain ⟨l2, c2, t2⟩ := h2
  refine ⟨le_trans l1 l2, ?_, ?_⟩
  · intro i hi
    obtain ⟨p1, k1, o1⟩ := c1 i hi
    obtain ⟨p2, k2, o2⟩ := c2 i (lt_of_lt_of_le hi l1)
    exact ⟨p2.trans p1, k2.trans k1, o2.trans o1⟩
  · intro i k c hi hc
    exact t2 i k c (lt_of_lt_of_le hi l1) (t1 i k c hi hc)

theorem transition_evolves (f : Factory) (fr key : Nat) :
    Evolves f (f.transition fr key).1 := by
  cases hc : (f.shapeAt fr).transitions.lookup key with
  | some c => rw [transition_hit f fr key c hc]; exact evolves_refl f
  | none =>
    obtain ⟨hs, -⟩ := transition_miss f fr key hc
    refine ⟨?_, ?_, ?_⟩
    · rw [hs]; simp
    · intro i hi
      by_cases hif : i = fr
      · subst hif
        simp only [Factory.shapeAt, hs]
        rw [getD_setapp_self _ _ _ _ _ hi]
        exact ⟨rfl, rfl, rfl⟩
      · simp only [Factory.shapeAt, hs]
        rw [getD_setapp_ne _ _ _ _ _ _ hi hif]
        exact ⟨rfl, rfl, rfl⟩
    · intro i k c hi h
      by_cases hif : i = fr
      · subst hif
        simp only [Factory.shapeAt, hs]
        rw [getD_setapp_self _ _ _ _ _ hi]
        show ((key, f.shapes.length) :: (f.shapeAt i).transitions).lookup k = some c
        by_cases hkk : k = key
        · subst hkk; rw [hc] at h; exact Option.noConfusion h
        · rw [lookup_cons_ne _ _ _ _ hkk]; exact h
      · simp only [Factory.shapeAt, hs]
        rw [getD_setapp_ne _ _ _ _ _ _ hi hif]
        exact h

theorem transition_res (f : Factory) (fr key : Nat) (hf : FactoryInv f)
    (hfr : fr < f.shapes.length) :
    (f.transition fr key).2 < (f.transition fr key).1.shapes.length ∧
    ((f.transition fr key).1.shapeAt (f.transition fr key).2).parent = some fr ∧
    ((f.transition fr key).1.shapeAt (f.transition fr key).2).property_key = key ∧
    ((f.transition fr key).1.shapeAt (f.transition fr key).2).offset =
      (f.shapeAt fr).getPropertyCount ∧
    ((f.transition fr key).1.shapeAt fr).transitions.lookup key =
      some (f.transition fr key).2 := by
  cases hc : (f.shapeAt fr).transitions.lookup key with
  | some c =>
    rw [transition_hit f fr key c hc]
    obtain ⟨hlt, hpar, hkey⟩ := hf.tr_ok fr hfr key c hc
    have hc0 : c ≠ 0 := by
      intro h0; rw [h0] at hpar; rw [hf.root_parent] at hpar; exact Option.noConfusion hpar
    obtain ⟨p, hp, hoff⟩ := hf.child_ok c hlt hc0
    rw [hpar] at hp
    have hpf : p = fr := by injection hp.symm
    subst hpf
    exact ⟨hlt, hpar, hkey, hoff, hc⟩
  | none =>
    obtain ⟨hs, hidx⟩ := transition_miss f fr key hc
    rw [hidx]
    have hlen : (f.transition fr key).1.shapes.length = f.shapes.length + 1 := by
      rw [hs]; simp
    have hlast : (f.transition fr key).1.shapeAt f.shapes.length =
        ⟨some fr, key, (f.shapeAt fr).getPropertyCount, []⟩ := by
      simp only [Factory.shapeAt, hs]
      exact getD_setapp_last _ _ _ _ _
    have hfrAt : (f.transition fr key).1.shapeAt fr =
        { f.shapeAt fr with
            transitions := (key, f.shapes.length) :: (f.shapeAt fr).transitions } := by
      simp only [Factory.shapeAt, hs]
      exact getD_setapp_self _ _ _ _ _ hfr
    refine ⟨by omega, ?_, ?_, ?_, ?_⟩
    · rw [hlast]
    · rw [hlast]
    · rw [hlast]
    · rw [hfrAt]
      exact lookup_cons_self _ _ _

theorem transition_inv (f : Factory) (fr key : Nat) (hf : FactoryInv f)
    (hfr : fr < f.shapes.length) :
    FactoryInv (f.transition fr key).1 := by
  cases hc : (f.shapeAt fr).transitions.lookup key with
  | some c => rw [transition_hit f fr key c hc]; exact hf
  | none =>
    obtain ⟨hs, -⟩ := transition_miss f fr key hc
    have hlen : (f.transition fr key).1.shapes.length = f.shapes.length + 1 := by
      rw [hs]; simp
    have hlast : (f.transition fr key).1.shapeAt f.shapes.length =
        ⟨some fr, key, (f.shapeAt fr).getPropertyCount, []⟩ := by
      simp only [Factory.shapeAt, hs]
      exact getD_setapp_last _ _ _ _ _
    have hfrAt : (f.transition fr key).1.shapeAt fr =
        { f.shapeAt fr with
            transitions := (key, f.shapes.length) :: (f.shapeAt fr).transitions } := by
      simp only [Factory.shapeAt, hs]
      exact getD_setapp_self _ _ _ _ _ hfr
    have hold : ∀ i, i < f.shapes.length → i ≠ fr →
        (f.transition fr key).1.shapeAt i = f.shapeAt i := by
      intro i hi hif
      simp only [Factory.shapeAt, hs]
      exact getD_setapp_ne _ _ _ _ _ _ hi hif
    have hcore : ∀ i, i < f.shapes.length →
        ((f.transition fr key).1.shapeAt i).parent = (f.shapeAt i).parent ∧
        ((f.transition fr key).1.shapeAt i).property_key = (f.shapeAt i).property_key ∧
        ((f.transition fr key).1.shapeAt i).offset = (f.shapeAt i).offset := by
      intro i hi
      by_cases hif : i = fr
      · subst hif; rw [hfrAt]; exact ⟨rfl, rfl, rfl⟩
      · rw [hold i hi hif]; exact ⟨rfl, rfl, rfl⟩
    refine ⟨by omega, ?_, ?_, ?_, ?_, ?_, ?_⟩
    · obtain ⟨hp, -, -⟩ := hcore 0 hf.ne
      rw [hp]; exact hf.root_parent
    · obtain ⟨-, -, ho⟩ := hcore 0 hf.ne
      rw [ho]; exact hf.root_offset
    · obtain ⟨-, hk, -⟩ := hcore 0 hf.ne
      rw [hk]; exact hf.root_key
    · intro i hi p hp
      rw [hlen] at hi
      rcases Nat.lt_succ_iff_lt_or_eq.mp hi with hi' | hi'
      · obtain ⟨hpe, -, -⟩ := hcore i hi'
        show _
        rw [show ((f.transition fr key).1.shapes.getD i rootShape).parent =
            ((f.transition fr key).1.shapeAt i).parent from rfl, hpe] at hp
        exact hf.parent_lt i hi' p hp
      · subst hi'
        rw [show ((f.transition fr key).1.shapes.getD f.shapes.length rootShape).parent =
            ((f.transition fr key).1.shapeAt f.shapes.length).parent from rfl, hlast] at hp
        have hpfr : fr = p := by injection hp
        omega
    · intro i hi hi0
      rw [hlen] at hi
      rcases Nat.lt_succ_iff_lt_or_eq.mp hi with hi' | hi'
      · obtain ⟨p, hp, hoff⟩ := hf.child_ok i hi' hi0
        obtain ⟨hpe, -, hoe⟩ := hcore i hi'
        have hplt : p < i := hf.parent_lt i hi' p hp
        obtain ⟨-, -, hoep⟩ := hcore p (lt_trans hplt hi')
        refine ⟨p, by rw [hpe]; exact hp, ?_⟩
        rw [hoe, hoff]
        show Shape.getPropertyCount _ = Shape.getPropertyCount _
        unfold Shape.getPropertyCount
        rw [hoep]
      · subst hi'
        refine ⟨fr, by rw [hlast], ?_⟩
        rw [hlast]
        obtain ⟨-, -, hoefr⟩ := hcore fr hfr
        show (f.shapeAt fr).getPropertyCount = _
        unfold Shape.getPropertyCount
        rw [hoefr]
    · intro i hi k c hk
      rw [hlen] at hi
      rcases Nat.lt_succ_iff_lt_or_eq.mp hi with hi' | hi'
      · by_cases hif : i = fr
        · subst hif
          rw [hfrAt] at hk
          by_cases hkk : k = key
          · subst hkk
            rw [lookup_cons_self] at hk
            have hcl : c = f.shapes.length := by injection hk.symm
            subst hcl
            rw [hlast]
            exact ⟨by omega, rfl, rfl⟩
          · rw [lookup_cons_ne _ _ _ _ hkk] at hk
            obtain ⟨hlt, hp, hke⟩ := hf.tr_ok i hi' k c hk
            obtain ⟨hpe, hkee, -⟩ := hcore c hlt
            exact ⟨by omega, by rw [hpe]; exact hp, by rw [hkee]; exact hke⟩
        · rw [hold i hi' hif] at hk
          obtain ⟨hlt, hp, hke⟩ := hf.tr_ok i hi' k c hk
          obtain ⟨hpe, hkee, -⟩ := hcore c hlt
          exact ⟨by omega, by rw [hpe]; exact hp, by rw [hkee]; exact hke⟩
      · subst hi'
        rw [hlast] at hk
        simp [List.lookup] at hk

theorem parent_lt_of_some {shapes : List Shape} (hP : ParentLT shapes) {idx p : Nat}
    (hpar : (shapes.getD idx rootShape).parent = some p) : p < idx := by
  by_cases hlen : idx < shapes.length
  · exact hP idx hlen p hpar
  · rw [getD_ge shapes idx rootShape (by omega)] at hpar
    simp [rootShape] at hpar

theorem getOffset_evolves (f g : Factory) (hE : Evolves f g)
    (hPf : ParentLT f.shapes) (hPg : ParentLT g.shapes) :
    ∀ idx, idx < f.shapes.length → ∀ key, g.getOffset idx key = f.getOffset idx key := by
  intro idx
  induction idx using Nat.strong_induction_on with
  | _ idx ih =>
    intro hidx key
    rw [getOffset_eq g hPg, getOffset_eq f hPf]
    obtain ⟨hpe, hke, hoe⟩ := hE.2.1 idx hidx
    rw [hpe, hke, hoe]
    cases hpar : (f.shapeAt idx).parent with
    | none => rfl
    | some p =>
      dsimp only
      split_ifs
      · rfl
      · have hpi : p < idx := parent_lt_of_some hPf hpar
        exact ih p hpi (by omega) key

theorem pathOf_evolves (f g : Factory) (hE : Evolves f g)
    (hPf : ParentLT f.shapes) (hPg : ParentLT g.shapes) :
    ∀ idx, idx < f.shapes.length → g.pathOf idx = f.pathOf idx := by
  intro idx
  induction idx using Nat.strong_induction_on with
  | _ idx ih =>
    intro hidx
    rw [pathOf_eq g hPg, pathOf_eq f hPf]
    obtain ⟨hpe, hke, -⟩ := hE.2.1 idx hidx
    rw [hpe, hke]
    cases hpar : (f.shapeAt idx).parent with
    | none => rfl
    | some p =>
      dsimp only
      have hpi : p < idx := parent_lt_of_some hPf hpar
      rw [ih p hpi (by omega)]

theorem getOffset_none_iff (f : Factory) (hP : ParentLT f.shapes) :
    ∀ idx key, f.getOffset idx key = none ↔ key ∉ f.pathOf idx := by
  intro idx
  induction idx using Nat.strong_induction_on with
  | _ idx ih =>
    intro key
    rw [getOffset_eq f hP, pathOf_eq f hP]
    cases hpar : (f.shapeAt idx).parent with
    | none => simp
    | some p =>
      dsimp only
      have hpi : p < idx := parent_lt_of_some hP hpar
      by_cases hk : (f.shapeAt idx).property_key = key
      · simp [hk]
      · rw [if_neg hk]
        rw [ih p hpi key]
        simp only [List.mem_append, List.mem_singleton]
        constructor
        · intro h hmem
          rcases hmem with hmem | hmem
          · exact h hmem
          · exact hk hmem.symm
        · intro h hmem
          exact h (Or.inl hmem)

theorem pathOf_root (f : Factory) (hf : FactoryInv f) : f.pathOf 0 = [] := by
  rw [pathOf_eq f hf.parent_lt, hf.root_parent]

/-! ### More list helpers for the value array -/

theorem getD_take {α : Type} (l : List α) (n i : Nat) (d : α) (h : i < n) :
    (l.take n).getD i d = l.getD i d := by
  induction l generalizing n i with
  | nil => simp
  | cons a t ih =>
    cases n with
    | zero => omega
    | succ n2 =>
      cases i with
      | zero => rfl
      | succ j => simpa using ih n2 j (by omega)

theorem getD_map {α β : Type} (g : α → β) (l : List α) (i : Nat) (d : β) (d' : α)
    (h : i < l.length) :
    (l.map g).getD i d = g (l.getD i d') := by
  induction l generalizing i with
  | nil => simp at h
  | cons a t ih =>
    cases i with
    | zero => rfl
    | succ j => simpa using ih j (by simpa using h)

theorem listResize_length (l : List Val) (n : Nat) : (listResize l n).length = n := by
  unfold listResize
  simp
  omega

theorem mem_keys_index {α : Type} (m : List (Nat × α)) (k : Nat) (d : Nat × α)
    (h : k ∈ m.map Prod.fst) :
    ∃ i, i < m.length ∧ (m.getD i d).1 = k := by
  induction m with
  | nil => simp at h
  | cons a t ih =>
    by_cases hk : a.1 = k
    · exact ⟨0, by simp, hk⟩
    · have h2 : k ∈ t.map Prod.fst := by
        rcases List.mem_map.mp h with ⟨p, hp, hfst⟩
        rcases List.mem_cons.mp hp with h3 | h3
        · rw [h3] at hfst; exact absurd hfst hk
        · exact List.mem_map.mpr ⟨p, h3, hfst⟩
      obtain ⟨i, hi, hki⟩ := ih h2
      exact ⟨i + 1, by simpa using hi, hki⟩

/-! ### Abstract object state: an association list in insertion order -/

/-- default pair for `getD` on association lists. -/
def dfltPair : Nat × Val := (0, Val.empty)

/-- the spec-side effect of one `set`: overwrite the entry of `k` in place, or
append a fresh entry (last-writer wins, insertion order preserved). -/
def updAssoc (m : List (Nat × Val)) (k : Nat) (v : Val) : List (Nat × Val) :=
  if k ∈ m.map Prod.fst then m.map (fun p => if p.1 = k then (k, v) else p)
  else m ++ [(k, v)]

/-- the spec-side effect of a sequence of `set`s. -/
def runUpd (m : List (Nat × Val)) : List (Nat × Val) → List (Nat × Val)
  | [] => m
  | (k, v) :: rest => runUpd (updAssoc m k v) rest

/-- the value of the last write under `k` in an operation sequence. -/
def lastWrite : List (Nat × Val) → Nat → Option Val
  | [], _ => none
  | (k', v') :: rest, k =>
    match lastWrite rest k with
    | some v => some v
    | none => if k' = k then some v' else none

theorem getD_eq_get {α : Type} (l : List α) (d : α) (i : Nat) (h : i < l.length) :
    l.getD i d = l.get ⟨i, h⟩ := by
  induction l generalizing i with
  | nil => simp at h
  | cons a t ih =>
    cases i with
    | zero => rfl
    | succ j => simpa using ih j (by simpa using h)

theorem nodup_getD_inj {α : Type} (l : List α) (d : α) (hnd : l.Nodup) (i j : Nat)
    (hi : i < l.length) (hj : j < l.length) (h : l.getD i d = l.getD j d) : i = j := by
  rw [getD_eq_get l d i hi, getD_eq_get l d j hj] at h
  have := (List.Nodup.get_inj_iff hnd).mp h
  exact congrArg Fin.val this

theorem keys_map_upd (m : List (Nat × Val)) (k : Nat) (v : Val) :
    (m.map (fun p => if p.1 = k then (k, v) else p)).map Prod.fst = m.map Prod.fst := by
  induction m with
  | nil => rfl
  | cons a t ih =>
    by_cases ha : a.1 = k
    · simp only [List.map_cons, if_pos ha]
      exact congrArg₂ List.cons ha.symm ih
    · simp only [List.map_cons, if_neg ha]
      exact congrArg₂ List.cons rfl ih

theorem updAssoc_keys_mem (m : List (Nat × Val)) (k : Nat) (v : Val)
    (h : k ∈ m.map Prod.fst) :
    (updAssoc m k v).map Prod.fst = m.map Prod.fst := by
  unfold updAssoc
  rw [if_pos h]
  exact keys_map_upd m k v

theorem updAssoc_len_mem (m : List (Nat × Val)) (k : Nat) (v : Val)
    (h : k ∈ m.map Prod.fst) :
    (updAssoc m k v).length = m.length := by
  unfold updAssoc
  rw [if_pos h]
  simp

theorem updAssoc_nonmem (m : List (Nat × Val)) (k : Nat) (v : Val)
    (h : k ∉ m.map Prod.fst) :
    updAssoc m k v = m ++ [(k, v)] := by
  unfold updAssoc
  rw [if_neg h]

theorem updAssoc_getD_mem (m : List (Nat × Val)) (k : Nat) (v : Val)
    (hmem : k ∈ m.map Prod.fst) (j : Nat) (hj : j < m.length) :
    (updAssoc m k v).getD j dfltPair =
      (if (m.getD j dfltPair).1 = k then (k, v) else m.getD j dfltPair) := by
  unfold updAssoc
  rw [if_pos hmem]
  exact getD_map _ m j dfltPair dfltPair hj

/-- the simulation relation between a (factory, object) pair and its abstract
state: the shape's insertion history lists the abstract keys in order, the
value array has exactly one cell per key, and the cell at the offset the shape
resolves for key number `i` holds the abstract value of that key. -/
def Sim (f : Factory) (o : DynObject) (m : List (Nat × Val)) : Prop :=
  FactoryInv f ∧ o.shape < f.shapes.length ∧
  f.pathOf o.shape = m.map Prod.fst ∧
  (m.map Prod.fst).Nodup ∧
  o.values.length = m.length ∧
  (f.shapeAt o.shape).getPropertyCount = m.length ∧
  ∀ i, i < m.length →
    f.getOffset o.shape (m.getD i dfltPair).1 = some i ∧
    o.values.getD i Val.empty = (m.getD i dfltPair).2

theorem sim_createObject (f : Factory) (hf : FactoryInv f) :
    Sim f Factory.createObject [] := by
  refine ⟨hf, hf.ne, ?_, by simp, rfl, ?_, ?_⟩
  · rw [show Factory.createObject.shape = 0 from rfl]
    rw [pathOf_root f hf]
    rfl
  · rw [show Factory.createObject.shape = 0 from rfl]
    unfold Shape.getPropertyCount
    rw [hf.root_offset]
    simp
  · intro i hi
    simp at hi

theorem getD_mem {α : Type} (l : List α) (j : Nat) (d : α) (h : j < l.length) :
    l.getD j d ∈ l := by
  rw [getD_eq_get l d j h]
  exact List.get_mem l j h

/-- one `set` preserves the simulation: a present key is overwritten in place,
an absent key extends the abstract state (the `SENTINEL` bound only matters
for an absent key, where the value array must grow). -/
theorem set_sim (f : Factory) (o : DynObject) (m : List (Nat × Val)) (k : Nat) (v : Val)
    (hS : Sim f o m) (hb : k ∉ m.map Prod.fst → m.length < SENTINEL) :
    Sim (o.set f k v).1 (o.set f k v).2 (updAssoc m k v) ∧
    Evolves f (o.set f k v).1 ∧
    (o.set f k v).2.prototype = o.prototype ∧
    (updAssoc m k v).length ≤ m.length + 1 := by
  obtain ⟨hf, hsh, hpath, hnd, hvlen, hcnt, hix⟩ := hS
  cases o with
  | mk shape values proto =>
  dsimp only [DynObject.shape, DynObject.values, DynObject.prototype] at hsh hpath hvlen hcnt hix ⊢
  by_cases hmem : k ∈ m.map Prod.fst
  · -- the key is present: plain overwrite, no shape change
    obtain ⟨i, hi, hki⟩ := mem_keys_index m k dfltPair hmem
    have hoff : f.getOffset shape k = some i := by
      have h2 := (hix i hi).1
      rw [hki] at h2
      exact h2
    have hset : DynObject.set f k v (DynObject.mk shape values proto) =
        (f, DynObject.mk shape (values.set i v) proto) := by
      simp [DynObject.set, hoff]
    rw [hset]
    have hulen : (updAssoc m k v).length = m.length := updAssoc_len_mem m k v hmem
    have hukeys : (updAssoc m k v).map Prod.fst = m.map Prod.fst := updAssoc_keys_mem m k v hmem
    refine ⟨⟨hf, hsh, ?_, ?_, ?_, ?_, ?_⟩, evolves_refl f, rfl, by omega⟩
    · dsimp only [DynObject.shape]
      rw [hukeys]
      exact hpath
    · rw [hukeys]; exact hnd
    · dsimp only [DynObject.values, DynObject.shape]
      rw [hulen, List.length_set]
      exact hvlen
    · dsimp only [DynObject.shape]
      rw [hulen]
      exact hcnt
    · intro j hj
      rw [hulen] at hj
      have hupd := updAssoc_getD_mem m k v hmem j hj
      dsimp only [DynObject.shape, DynObject.values]
      by_cases hjk : (m.getD j dfltPair).1 = k
      · have h1 : (m.map Prod.fst).getD j 0 = k := by
          rw [getD_map Prod.fst m j 0 dfltPair hj]; exact hjk
        have h2 : (m.map Prod.fst).getD i 0 = k := by
          rw [getD_map Prod.fst m i 0 dfltPair hi]; exact hki
        have hij : j = i :=
          nodup_getD_inj (m.map Prod.fst) 0 hnd j i (by simpa using hj) (by simpa using hi)
            (h1.trans h2.symm)
        constructor
        · rw [hupd, if_pos hjk]
          show f.getOffset shape k = some j
          rw [hoff, hij]
        · rw [hupd, if_pos hjk]
          show (values.set i v).getD j Val.empty = v
          rw [hij]
          exact getD_set_self values i v Val.empty (by rw [hvlen]; exact hi)
      · have hji : j ≠ i := fun he => hjk (by rw [he]; exact hki)
        constructor
        · rw [hupd, if_neg hjk]
          exact (hix j hj).1
        · rw [hupd, if_neg hjk]
          rw [getD_set_ne values i j v Val.empty (fun he => hji he.symm)]
          exact (hix j hj).2
  · -- the key is absent: shape transition
    have hoff : f.getOffset shape k = none := by
      rw [getOffset_none_iff f hf.parent_lt shape k, hpath]
      exact hmem
    have hb' : m.length < SENTINEL := hb hmem
    have hset : DynObject.set f k v (DynObject.mk shape values proto) =
        ((f.transition shape k).1,
         DynObject.mk (f.transition shape k).2
           ((listResize values
             (((f.transition shape k).1.shapeAt (f.transition shape k).2).getPropertyCount)).set
             (((f.transition shape k).1.shapeAt (f.transition shape k).2).getNewOffset) v)
           proto) := by
      simp [DynObject.set, hoff]
    obtain ⟨hlt', hpar', hkey', hoff', hcache'⟩ := transition_res f shape k hf hsh
    have hInv' : FactoryInv (f.transition shape k).1 := transition_inv f shape k hf hsh
    have hEv : Evolves f (f.transition shape k).1 := transition_evolves f shape k
    have hoffm : ((f.transition shape k).1.shapeAt (f.transition shape k).2).offset = m.length := by
      rw [hoff', hcnt]
    have hnoff : ((f.transition shape k).1.shapeAt (f.transition shape k).2).getNewOffset
        = m.length := by
      unfold Shape.getNewOffset
      exact hoffm
    have hcntm : ((f.transition shape k).1.shapeAt (f.transition shape k).2).getPropertyCount
        = m.length + 1 := by
      unfold Shape.getPropertyCount
      rw [hoffm, if_neg (by omega : ¬ m.length = SENTINEL)]
    have hupd : updAssoc m k v = m ++ [(k, v)] := updAssoc_nonmem m k v hmem
    have hukeys : (updAssoc m k v).map Prod.fst = m.map Prod.fst ++ [k] := by
      rw [hupd]; simp
    have hulen : (updAssoc m k v).length = m.length + 1 := by
      rw [hupd]; simp
    rw [hset, hcntm, hnoff]
    refine ⟨⟨hInv', hlt', ?_, ?_, ?_, ?_, ?_⟩, hEv, rfl, by omega⟩
    · dsimp only [DynObject.shape]
      rw [pathOf_eq _ hInv'.parent_lt, hpar']
      dsimp only
      rw [hkey', pathOf_evolves f _ hEv hf.parent_lt hInv'.parent_lt shape hsh, hpath, hukeys]
    · rw [hukeys]
      refine List.Nodup.append hnd (List.nodup_singleton k) ?_
      rw [List.disjoint_singleton]
      exact hmem
    · dsimp only [DynObject.values]
      rw [List.length_set, listResize_length, hulen]
    · dsimp only [DynObject.shape]
      rw [hcntm, hulen]
    · intro j hj
      rw [hulen] at hj
      dsimp only [DynObject.shape, DynObject.values]
      rcases Nat.lt_succ_iff_lt_or_eq.mp hj with hj' | hj'
      · have hmj : (updAssoc m k v).getD j dfltPair = m.getD j dfltPair := by
          rw [hupd]
          exact getD_append_lt m [(k, v)] j dfltPair hj'
        have hkj : (m.getD j dfltPair).1 ≠ k := by
          intro he
          apply hmem
          rw [← he]
          exact List.mem_map.mpr ⟨m.getD j dfltPair, getD_mem m j dfltPair hj', rfl⟩
        constructor
        · rw [hmj, getOffset_eq _ hInv'.parent_lt, hpar']
          dsimp only
          rw [hkey', if_neg (fun he => hkj he.symm),
            getOffset_evolves f _ hEv hf.parent_lt hInv'.parent_lt shape hsh]
          exact (hix j hj').1
        · rw [hmj, getD_set_ne _ _ _ _ _ (by omega : m.length ≠ j)]
          unfold listResize
          rw [getD_append_lt _ _ _ _ (by rw [List.length_take, hvlen]; omega),
            getD_take values _ j Val.empty (by omega)]
          exact (hix j hj').2
      · subst hj'
        have hmj : (updAssoc m k v).getD m.length dfltPair = (k, v) := by
          rw [hupd, getD_append_ge m [(k, v)] m.length dfltPair (le_refl _)]
          simp
        constructor
        · rw [hmj, getOffset_eq _ hInv'.parent_lt, hpar']
          dsimp only
          rw [hkey']
          show (if k = k then _ else _) = _
          rw [if_pos rfl, hoffm]
        · rw [hmj]
          show ((listResize values (m.length + 1)).set m.length v).getD m.length Val.empty = v
          exact getD_set_self _ _ _ _ (by rw [listResize_length]; omega)

theorem runSets_sim (ops : List (Nat × Val)) :
    ∀ f o m, Sim f o m → m.length + ops.length ≤ SENTINEL →
      Sim (runSets f o ops).1 (runSets f o ops).2 (runUpd m ops) ∧
      Evolves f (runSets f o ops).1 ∧
      (runSets f o ops).2.prototype = o.prototype ∧
      (runUpd m ops).length ≤ m.length + ops.length := by
  induction ops with
  | nil =>
    intro f o m hS hb
    exact ⟨hS, evolves_refl f, rfl, by simp [runUpd]⟩
  | cons p rest ih =>
    obtain ⟨k, v⟩ := p
    intro f o m hS hb
    obtain ⟨hS', hEv', hproto', hlen'⟩ :=
      set_sim f o m k v hS (fun _ => by simp at hb; omega)
    obtain ⟨hS2, hEv2, hproto2, hlen2⟩ :=
      ih (o.set f k v).1 (o.set f k v).2 (updAssoc m k v) hS' (by simp at hb; omega)
    refine ⟨hS2, evolves_trans hEv' hEv2, hproto2.trans hproto', ?_⟩
    show (runUpd (updAssoc m k v) rest).length ≤ m.length + ((k, v) :: rest).length
    simp only [List.length_cons]
    omega

theorem lastWrite_isSome_iff (k : Nat) :
    ∀ ops : List (Nat × Val), (lastWrite ops k).isSome = true ↔ k ∈ ops.map Prod.fst := by
  intro ops
  induction ops with
  | nil => simp [lastWrite]
  | cons p rest ih =>
    obtain ⟨k', v'⟩ := p
    simp only [lastWrite, List.map_cons, List.mem_cons]
    cases hr : lastWrite rest k with
    | some v2 =>
      have : k ∈ rest.map Prod.fst := ih.mp (by rw [hr]; rfl)
      simp [this]
    | none =>
      have hnm : k ∉ rest.map Prod.fst := fun hm => by
        have := ih.mpr hm
        rw [hr] at this
        simp at this
      by_cases hkk : k' = k
      · simp [hkk]
      · simp [hkk, hnm]
        exact fun he => hkk he.symm

theorem updAssoc_entry (m : List (Nat × Val)) (k : Nat) (v : Val) :
    ∃ i, i < (updAssoc m k v).length ∧ (updAssoc m k v).getD i dfltPair = (k, v) := by
  by_cases hmem : k ∈ m.map Prod.fst
  · obtain ⟨i, hi, hki⟩ := mem_keys_index m k dfltPair hmem
    refine ⟨i, by rw [updAssoc_len_mem m k v hmem]; exact hi, ?_⟩
    rw [updAssoc_getD_mem m k v hmem i hi, if_pos hki]
  · refine ⟨m.length, ?_, ?_⟩
    · rw [updAssoc_nonmem m k v hmem]
      simp
    · rw [updAssoc_nonmem m k v hmem,
        getD_append_ge m [(k, v)] m.length dfltPair (le_refl _)]
      simp

theorem runUpd_preserve (ops : List (Nat × Val)) :
    ∀ m k v i, k ∉ ops.map Prod.fst → i < m.length → m.getD i dfltPair = (k, v) →
      ∃ j, j < (runUpd m ops).length ∧ (runUpd m ops).getD j dfltPair = (k, v) := by
  induction ops with
  | nil => intro m k v i _ hi he; exact ⟨i, hi, he⟩
  | cons p rest ih =>
    obtain ⟨k2, v2⟩ := p
    intro m k v i hnm hi he
    have hk2 : k ≠ k2 := fun h => hnm (by rw [h]; simp)
    have hrest : k ∉ rest.map Prod.fst := fun h => hnm (by simp [h])
    simp only [runUpd]
    by_cases hmem : k2 ∈ m.map Prod.fst
    · apply ih (updAssoc m k2 v2) k v i hrest
      · rw [updAssoc_len_mem m k2 v2 hmem]; exact hi
      · rw [updAssoc_getD_mem m k2 v2 hmem i hi, if_neg (by rw [he]; exact hk2)]
        exact he
    · apply ih (updAssoc m k2 v2) k v i hrest
      · rw [updAssoc_nonmem m k2 v2 hmem]; simp; omega
      · rw [updAssoc_nonmem m k2 v2 hmem, getD_append_lt m [(k2, v2)] i dfltPair hi]
        exact he

theorem runUpd_entry (ops : List (Nat × Val)) :
    ∀ m k v, lastWrite ops k = some v →
      ∃ i, i < (runUpd m ops).length ∧ (runUpd m ops).getD i dfltPair = (k, v) := by
  induction ops with
  | nil => intro m k v h; simp [lastWrite] at h
  | cons p rest ih =>
    obtain ⟨k', v'⟩ := p
    intro m k v h
    simp only [lastWrite] at h
    simp only [runUpd]
    cases hr : lastWrite rest k with
    | some v2 =>
      rw [hr] at h
      have hv : v2 = v := by injection h
      subst hv
      exact ih (updAssoc m k' v') k v2 hr
    | none =>
      rw [hr] at h
      dsimp only at h
      by_cases hkk : k' = k
      · rw [if_pos hkk] at h
        have hv : v' = v := by injection h
        subst hv
        subst hkk
        obtain ⟨i, hi, he⟩ := updAssoc_entry m k' v'
        have hnm : k' ∉ rest.map Prod.fst := fun hm => by
          have := (lastWrite_isSome_iff k' rest).mpr hm
          rw [hr] at this
          simp at this
        exact runUpd_preserve rest (updAssoc m k' v') k' v' i hnm hi he
      · rw [if_neg hkk] at h
        exact Option.noConfusion h

/-- unfolding equation for `DynObject.get` on a constructor. -/
theorem get_mk (f : Factory) (r : Req) (key shape : Nat) (values : List Val)
    (proto : Option DynObject) :
    DynObject.get f r key (DynObject.mk shape values proto) =
      match f.getOffset shape key with
      | some off =>
        match r with
        | .anyR => .ok (values.getD off Val.empty)
        | .typed t =>
          if (values.getD off Val.empty).tag = some t then .ok (values.getD off Val.empty)
          else .error "type mismatch for property"
      | none =>
        match proto with
        | some p => DynObject.get f r key p
        | none => .error "no such property" := by
  cases hoff : f.getOffset shape key <;> cases r <;> cases proto <;>
    simp only [DynObject.get, hoff]

/-- a resolved key with the untyped view returns the cell at the offset. -/
theorem get_any_resolved (f : Factory) (o : DynObject) (k i : Nat)
    (h : f.getOffset o.shape k = some i) :
    o.get f Req.anyR k = Except.ok (o.values.getD i Val.empty) := by
  cases o with
  | mk shape values proto =>
    dsimp only [DynObject.shape] at h
    rw [get_mk, h]
    rfl

/-- C1: for every object created from a factory (any well-formed factory
state) and every finite sequence of `set` operations on it, and for every
identifier `k` assigned at least once in the sequence, `get(k)` (untyped view)
returns the value of the last `set` under `k` — last-writer wins on duplicate
keys — and the offset `getOffset` resolves is within the value array's bounds.
The bound `ops.length ≤ SENTINEL` (fewer than `2^64` operations) reflects the
`size_t` offset arithmetic and covers every physically realizable run. -/
theorem C1_get_returns_last_set (f₀ : Factory) (hf : FactoryInv f₀)
    (ops : List (Nat × Val)) (k : Nat)
    (hk : k ∈ ops.map Prod.fst) (hb : ops.length ≤ SENTINEL) :
    ∃ off v,
      lastWrite ops k = some v ∧
      (runSets f₀ Factory.createObject ops).1.getOffset
        (runSets f₀ Factory.createObject ops).2.shape k = some off ∧
      off < (runSets f₀ Factory.createObject ops).2.values.length ∧
      (runSets f₀ Factory.createObject ops).2.get
        (runSets f₀ Factory.createObject ops).1 Req.anyR k = Except.ok v := by
  obtain ⟨hSim, -, -, -⟩ :=
    runSets_sim ops f₀ Factory.createObject [] (sim_createObject f₀ hf) (by simpa using hb)
  obtain ⟨hf1, hsh1, hpath1, hnd1, hvlen1, hcnt1, hix1⟩ := hSim
  have hsome : (lastWrite ops k).isSome := (lastWrite_isSome_iff k ops).mpr hk
  obtain ⟨v, hv⟩ := Option.isSome_iff_exists.mp hsome
  obtain ⟨i, hi, he⟩ := runUpd_entry ops [] k v hv
  refine ⟨i, v, hv, ?_, ?_, ?_⟩
  · have h2 := (hix1 i hi).1
    rw [he] at h2
    exact h2
  · rw [hvlen1]; exact hi
  · have hoff := (hix1 i hi).1
    rw [he] at hoff
    have hval := (hix1 i hi).2
    rw [he] at hval
    rw [get_any_resolved _ _ k i hoff, hval]

theorem C1_witness :
    ∃ off v,
      lastWrite [(0, Val.vInt 1), (1, Val.vStr "x"), (0, Val.vInt 3)] 0 = some v ∧
      (runSets Factory.new Factory.createObject
        [(0, Val.vInt 1), (1, Val.vStr "x"), (0, Val.vInt 3)]).1.getOffset
        (runSets Factory.new Factory.createObject
          [(0, Val.vInt 1), (1, Val.vStr "x"), (0, Val.vInt 3)]).2.shape 0 = some off ∧
      off < (runSets Factory.new Factory.createObject
        [(0, Val.vInt 1), (1, Val.vStr "x"), (0, Val.vInt 3)]).2.values.length ∧
      (runSets Factory.new Factory.createObject
        [(0, Val.vInt 1), (1, Val.vStr "x"), (0, Val.vInt 3)]).2.get
        (runSets Factory.new Factory.createObject
          [(0, Val.vInt 1), (1, Val.vStr "x"), (0, Val.vInt 3)]).1 Req.anyR 0 =
        Except.ok v :=
  C1_get_returns_last_set Factory.new factoryInv_new
    [(0, Val.vInt 1), (1, Val.vStr "x"), (0, Val.vInt 3)] 0 (by decide) (by decide)

/-- C3: calling `set` with an identifier already present on the object only
overwrites the value cell at that identifier's offset: the shape (identity and
hence the factory) is unchanged, the value array's length is unchanged (no
reallocation), every other value cell is unchanged, and the prototype link is
unchanged. -/
theorem C3_overwrite_frame (f : Factory) (o : DynObject) (k : Nat) (v : Val) (off : Nat)
    (h : f.getOffset o.shape k = some off) :
    (o.set f k v).1 = f ∧
    (o.set f k v).2.shape = o.shape ∧
    (o.set f k v).2.values.length = o.values.length ∧
    (∀ j, j ≠ off → (o.set f k v).2.values.getD j Val.empty = o.values.getD j Val.empty) ∧
    (o.set f k v).2.prototype = o.prototype := by
  cases o with
  | mk shape values proto =>
    dsimp only [DynObject.shape] at h
    have hset : DynObject.set f k v (DynObject.mk shape values proto) =
        (f, DynObject.mk shape (values.set off v) proto) := by
      simp [DynObject.set, h]
    rw [hset]
    refine ⟨rfl, rfl, ?_, ?_, rfl⟩
    · dsimp only [DynObject.values]
      exact List.length_set values off v
    · intro j hj
      dsimp only [DynObject.values]
      exact getD_set_ne values off j v Val.empty (fun he => hj he.symm)

theorem C3_witness :
    ((runSets Factory.new Factory.createObject [(0, Val.vInt 1)]).2.set
      (runSets Factory.new Factory.createObject [(0, Val.vInt 1)]).1 0 (Val.vInt 7)).1 =
      (runSets Factory.new Factory.createObject [(0, Val.vInt 1)]).1 ∧
    ((runSets Factory.new Factory.createObject [(0, Val.vInt 1)]).2.set
      (runSets Factory.new Factory.createObject [(0, Val.vInt 1)]).1 0 (Val.vInt 7)).2.shape =
      (runSets Factory.new Factory.createObject [(0, Val.vInt 1)]).2.shape ∧
    ((runSets Factory.new Factory.createObject [(0, Val.vInt 1)]).2.set
      (runSets Factory.new Factory.createObject [(0, Val.vInt 1)]).1 0 (Val.vInt 7)).2.values.length =
      (runSets Factory.new Factory.createObject [(0, Val.vInt 1)]).2.values.length :=
  ⟨(C3_overwrite_frame (runSets Factory.new Factory.createObject [(0, Val.vInt 1)]).1
      (runSets Factory.new Factory.createObject [(0, Val.vInt 1)]).2 0 (Val.vInt 7) 0 rfl).1,
   (C3_overwrite_frame (runSets Factory.new Factory.createObject [(0, Val.vInt 1)]).1
      (runSets Factory.new Factory.createObject [(0, Val.vInt 1)]).2 0 (Val.vInt 7) 0 rfl).2.1,
   (C3_overwrite_frame (runSets Factory.new Factory.createObject [(0, Val.vInt 1)]).1
      (runSets Factory.new Factory.createObject [(0, Val.vInt 1)]).2 0 (Val.vInt 7) 0 rfl).2.2.1⟩

/-- C9: when `set` is given an identifier not yet present on the object, the
object transitions to a new shape (a child of the old one) whose offset equals
the previous shape's `property_count`; afterwards the value array's length
equals the new shape's `property_count`, i.e. it grew by exactly one cell, the
cell at the new shape's offset holds the newly written value, and the old
cells are preserved.  `property_count ≠ SENTINEL` rules out the physically
unreachable 2^64-th property, where the `size_t` sentinel arithmetic of the
source would wrap. -/
theorem C9_transition_growth (f : Factory) (o : DynObject) (k : Nat) (v : Val)
    (hf : FactoryInv f) (hsh : o.shape < f.shapes.length)
    (hnone : f.getOffset o.shape k = none)
    (hvlen : o.values.length = (f.shapeAt o.shape).getPropertyCount)
    (hnd : (f.shapeAt o.shape).getPropertyCount ≠ SENTINEL) :
    ((o.set f k v).1.shapeAt (o.set f k v).2.shape).parent = some o.shape ∧
    ((o.set f k v).1.shapeAt (o.set f k v).2.shape).offset =
      (f.shapeAt o.shape).getPropertyCount ∧
    (o.set f k v).2.values.length =
      ((o.set f k v).1.shapeAt (o.set f k v).2.shape).getPropertyCount ∧
    (o.set f k v).2.values.length = o.values.length + 1 ∧
    (o.set f k v).2.values.getD
      ((o.set f k v).1.shapeAt (o.set f k v).2.shape).offset Val.empty = v ∧
    (∀ j, j < o.values.length →
      (o.set f k v).2.values.getD j Val.empty = o.values.getD j Val.empty) := by
  cases o with
  | mk shape values proto =>
    dsimp only [DynObject.shape, DynObject.values] at hsh hnone hvlen hnd ⊢
    have hset : DynObject.set f k v (DynObject.mk shape values proto) =
        ((f.transition shape k).1,
         DynObject.mk (f.transition shape k).2
           ((listResize values
             (((f.transition shape k).1.shapeAt (f.transition shape k).2).getPropertyCount)).set
             (((f.transition shape k).1.shapeAt (f.transition shape k).2).getNewOffset) v)
           proto) := by
      simp [DynObject.set, hnone]
    obtain ⟨hlt', hpar', hkey', hoff', hcache'⟩ := transition_res f shape k hf hsh
    have hgpc : ∀ s : Shape, s.offset ≠ SENTINEL → s.getPropertyCount = s.offset + 1 := by
      intro s h
      unfold Shape.getPropertyCount
      rw [if_neg h]
    have hcnt' : ((f.transition shape k).1.shapeAt (f.transition shape k).2).getPropertyCount
        = (f.shapeAt shape).getPropertyCount + 1 := by
      rw [hgpc _ (by rw [hoff']; exact hnd), hoff']
    have hnoff : ((f.transition shape k).1.shapeAt (f.transition shape k).2).getNewOffset
        = (f.shapeAt shape).getPropertyCount := by
      unfold Shape.getNewOffset
      exact hoff'
    rw [hset]
    dsimp only [DynObject.shape, DynObject.values]
    refine ⟨hpar', hoff', ?_, ?_, ?_, ?_⟩
    · rw [List.length_set, listResize_length]
    · rw [List.length_set, listResize_length, hcnt', hvlen]
    · rw [hnoff, hoff']
      exact getD_set_self _ _ _ _ (by rw [listResize_length, hcnt']; omega)
    · intro j hj
      rw [hvlen] at hj
      rw [getD_set_ne _ _ _ _ _ (by rw [hnoff]; omega)]
      unfold listResize
      rw [getD_append_lt _ _ _ _ (by rw [List.length_take, hcnt', hvlen]; omega),
        getD_take values _ j Val.empty (by rw [hcnt']; omega)]

theorem C9_witness :
    (0 : Nat) < Factory.new.shapes.length ∧
    ((Factory.createObject.set Factory.new 5 (Val.vInt 9)).1.shapeAt
      (Factory.createObject.set Factory.new 5 (Val.vInt 9)).2.shape).offset =
      (Factory.new.shapeAt 0).getPropertyCount ∧
    (Factory.createObject.set Factory.new 5 (Val.vInt 9)).2.values.length = 0 + 1 :=
  ⟨by decide,
   (C9_transition_growth Factory.new Factory.createObject 5 (Val.vInt 9)
      factoryInv_new (by decide) rfl rfl (by decide)).2.1,
   (C9_transition_growth Factory.new Factory.createObject 5 (Val.vInt 9)
      factoryInv_new (by decide) rfl rfl (by decide)).2.2.2.1⟩

/-- C10: on a freshly created object (root shape, no prototype, empty value
array) `get` fails with no-such-property for every identifier and every
requested view, including identifier 0, although the root's `property_key`
field is the sentinel-constructed 0 and its offset is `(size_t)(-1)`: the
parent-chain walk never compares the root's key, so the sentinel offset is
never returned as a resolved offset. -/
theorem C10_fresh_object_never_resolves (f : Factory) (hf : FactoryInv f) (k : Nat) (r : Req) :
    (f.shapeAt Factory.createObject.shape).property_key = 0 ∧
    (f.shapeAt Factory.createObject.shape).offset = SENTINEL ∧
    f.getOffset Factory.createObject.shape k = none ∧
    Factory.createObject.get f r k = Except.error "no such property" := by
  have hnone : f.getOffset 0 k = none := by
    rw [getOffset_eq f hf.parent_lt, hf.root_parent]
  refine ⟨hf.root_key, hf.root_offset, hnone, ?_⟩
  show DynObject.get f r k (DynObject.mk 0 [] none) = _
  rw [get_mk, hnone]

theorem C10_witness :
    (Factory.new.shapeAt Factory.createObject.shape).property_key = 0 ∧
    (Factory.new.shapeAt Factory.createObject.shape).offset = SENTINEL ∧
    Factory.new.getOffset Factory.createObject.shape 0 = none ∧
    Factory.createObject.get Factory.new Req.anyR 0 = Except.error "no such property" :=
  C10_fresh_object_never_resolves Factory.new factoryInv_new 0 Req.anyR

/-! ### The identifier interner -/

/-- interns a list of strings in order, collecting the returned identifiers. -/
def internAll (f : Factory) : List String → Factory × List Nat
  | [] => (f, [])
  | s :: rest =>
    let fi := f.intern s
    let r := internAll fi.1 rest
    (r.1, fi.2 :: r.2)

/-- the invariant of the interner: the reverse map is sound w.r.t. the string
table, the table has no duplicates, and every table entry is reachable through
the reverse map (mirrors the two synchronized containers of the source). -/
structure InternInv (f : Factory) : Prop where
  sound : ∀ s i, f.str_to_id.lookup s = some i →
    i < f.id_to_str.length ∧ f.id_to_str.getD i "" = s
  nodup : f.id_to_str.Nodup
  surj : ∀ i, i < f.id_to_str.length →
    f.str_to_id.lookup (f.id_to_str.getD i "") = some i

theorem internInv_new : InternInv Factory.new := by
  refine ⟨?_, ?_, ?_⟩
  · intro s i h
    simp [Factory.new, List.lookup] at h
  · simp [Factory.new]
  · intro i hi
    simp [Factory.new] at hi

theorem lookup_none_of_not_mem (f : Factory) (hI : InternInv f) (s : String)
    (hnm : s ∉ f.id_to_str) : f.str_to_id.lookup s = none := by
  cases hl : f.str_to_id.lookup s with
  | none => rfl
  | some i =>
    obtain ⟨hi, hg⟩ := hI.sound s i hl
    exact absurd (hg ▸ getD_mem f.id_to_str i "" hi) hnm

theorem not_mem_of_lookup_none (f : Factory) (hI : InternInv f) (s : String)
    (hl : f.str_to_id.lookup s = none) : s ∉ f.id_to_str := by
  intro hm
  obtain ⟨n, hn⟩ := List.mem_iff_get.mp hm
  have := hI.surj n.1 n.2
  rw [getD_eq_get f.id_to_str "" n.1 n.2] at this
  rw [show (⟨n.1, n.2⟩ : Fin f.id_to_str.length) = n from rfl, hn, hl] at this
  exact Option.noConfusion this

theorem intern_miss (f : Factory) (s : String) (hl : f.str_to_id.lookup s = none) :
    f.intern s = (⟨f.shapes, f.id_to_str ++ [s],
                   (s, f.id_to_str.length) :: f.str_to_id⟩,
                  f.id_to_str.length) := by
  simp [Factory.intern, hl]

theorem intern_hit (f : Factory) (s : String) (i : Nat)
    (hl : f.str_to_id.lookup s = some i) : f.intern s = (f, i) := by
  simp [Factory.intern, hl]

theorem internInv_step (f : Factory) (hI : InternInv f) (s : String) :
    InternInv (f.intern s).1 := by
  cases hl : f.str_to_id.lookup s with
  | some i => rw [intern_hit f s i hl]; exact hI
  | none =>
    rw [intern_miss f s hl]
    have hnm : s ∉ f.id_to_str := not_mem_of_lookup_none f hI s hl
    refine ⟨?_, ?_, ?_⟩
    · intro t i h
      dsimp only at h ⊢
      by_cases hts : t = s
      · subst hts
        rw [lookup_cons_self] at h
        have hi : i = f.id_to_str.length := by injection h.symm
        subst hi
        constructor
        · simp
        · rw [getD_append_ge f.id_to_str [t] _ "" (le_refl _)]
          simp
      · rw [lookup_cons_ne _ _ _ _ hts] at h
        obtain ⟨hi, hg⟩ := hI.sound t i h
        constructor
        · simp; omega
        · rw [getD_append_lt f.id_to_str [s] i "" hi]
          exact hg
    · dsimp only
      refine List.Nodup.append hI.nodup (List.nodup_singleton s) ?_
      rw [List.disjoint_singleton]
      exact hnm
    · intro i hi
      dsimp only at hi ⊢
      simp only [List.length_append, List.length_singleton] at hi
      rcases Nat.lt_succ_iff_lt_or_eq.mp hi with hi' | hi'
      · rw [getD_append_lt f.id_to_str [s] i "" hi']
        have ht : f.id_to_str.getD i "" ≠ s := by
          intro he
          exact hnm (he ▸ getD_mem f.id_to_str i "" hi')
        rw [lookup_cons_ne _ _ _ _ ht]
        exact hI.surj i hi'
      · subst hi'
        rw [getD_append_ge f.id_to_str [s] _ "" (le_refl _)]
        simp only [Nat.sub_self]
        rw [show ([s].getD 0 "") = s from rfl]
        exact lookup_cons_self _ _ _

theorem internAll_fresh (ss : List String) :
    ∀ f, InternInv f → ss.Nodup → (∀ s ∈ ss, s ∉ f.id_to_str) →
      (internAll f ss).2 = List.range' f.id_to_str.length ss.length ∧
      (internAll f ss).1.id_to_str = f.id_to_str ++ ss := by
  induction ss with
  | nil => intro f _ _ _; exact ⟨rfl, by simp [internAll]⟩
  | cons s rest ih =>
    intro f hI hnd hfresh
    have hl : f.str_to_id.lookup s = none :=
      lookup_none_of_not_mem f hI s (hfresh s (by simp))
    have hmiss := intern_miss f s hl
    have hI' : InternInv (f.intern s).1 := internInv_step f hI s
    have hlen' : (f.intern s).1.id_to_str = f.id_to_str ++ [s] := by rw [hmiss]
    have hfresh' : ∀ t ∈ rest, t ∉ (f.intern s).1.id_to_str := by
      intro t ht
      rw [hlen']
      simp only [List.mem_append, List.mem_singleton]
      rintro (hm | hm)
      · exact hfresh t (by simp [ht]) hm
      · rw [hm] at ht
        exact (List.nodup_cons.mp hnd).1 ht
    obtain ⟨hres, htab⟩ := ih (f.intern s).1 hI' (List.nodup_cons.mp hnd).2 hfresh'
    constructor
    · show (f.intern s).2 :: (internAll (f.intern s).1 rest).2 = _
      rw [hres, hlen']
      rw [show (f.intern s).2 = f.id_to_str.length from by rw [hmiss]]
      simp [List.range'_succ]
    · show (internAll (f.intern s).1 rest).1.id_to_str = _
      rw [htab, hlen']
      simp

/-- C4: `intern` is idempotent per factory (re-interning a byte-equal string
returns the same identifier without changing the factory); interning `n`
distinct strings into a fresh factory returns exactly `0..n-1` in
first-encounter order; and under the interner invariant the set of live
identifiers is exactly the dense range `[0, count)`. -/
theorem C4_intern_idempotent_dense (f : Factory) (s : String) (ss : List String)
    (hnd : ss.Nodup) :
    (f.intern s).1.intern s = ((f.intern s).1, (f.intern s).2) ∧
    (internAll Factory.new ss).2 = List.range ss.length ∧
    (InternInv f → ∀ i, (∃ t, f.str_to_id.lookup t = some i) ↔ i < f.id_to_str.length) := by
  refine ⟨?_, ?_, ?_⟩
  · cases hl : f.str_to_id.lookup s with
    | some i =>
      rw [intern_hit f s i hl, intern_hit f s i hl]
    | none =>
      rw [intern_miss f s hl]
      dsimp only
      rw [intern_hit _ s f.id_to_str.length (lookup_cons_self _ _ _)]
  · obtain ⟨hres, -⟩ := internAll_fresh ss Factory.new internInv_new hnd
      (by intro t _ hm; simp [Factory.new] at hm)
    rw [hres]
    rw [show Factory.new.id_to_str.length = 0 from rfl]
    rw [List.range_eq_range']
  · intro hI i
    constructor
    · rintro ⟨t, ht⟩
      exact (hI.sound t i ht).1
    · intro hi
      exact ⟨f.id_to_str.getD i "", hI.surj i hi⟩

theorem C4_witness :
    ((Factory.new.intern "a").1.intern "a" = ((Factory.new.intern "a").1,
      (Factory.new.intern "a").2)) ∧
    (internAll Factory.new ["a", "b", "c"]).2 = List.range 3 :=
  ⟨(C4_intern_idempotent_dense Factory.new "a" ["a", "b", "c"] (by decide)).1,
   (C4_intern_idempotent_dense Factory.new "a" ["a", "b", "c"] (by decide)).2.1⟩

/-- C5 as stated is refuted: `getString` returns the literal `"<?>"` for an
out-of-range identifier, and `"<?>"` is itself an internable string, so the
"unknown" result can be confused with an interned string.  After
`intern("<?>") = 0` (count = 1), the out-of-range `getString 1` equals the
in-range `getString 0`. -/
theorem C5_counterexample :
    (Factory.new.intern "<?>").2 = 0 ∧
    (Factory.new.intern "<?>").1.id_to_str.length = 1 ∧
    (Factory.new.intern "<?>").1.getString 1 = "<?>" ∧
    (Factory.new.intern "<?>").1.getString 0 = "<?>" ∧
    (Factory.new.intern "<?>").1.getString 1 = (Factory.new.intern "<?>").1.getString 0 := by
  refine ⟨rfl, rfl, rfl, rfl, rfl⟩

/-- C5 amended: `getString` with an out-of-range identifier returns the fixed
string `"<?>"` and never aborts; this result is distinct from every interned
string other than `"<?>"` itself (so it is distinguished only when the host
never interns `"<?>"`). -/
theorem C5_lookup_out_of_range (f : Factory) (id : Nat) (h : f.id_to_str.length ≤ id) :
    f.getString id = "<?>" ∧
    (∀ s, s ∈ f.id_to_str → s ≠ "<?>" → f.getString id ≠ s) := by
  have hg : f.getString id = "<?>" := by
    unfold Factory.getString
    rw [if_neg (by omega)]
  refine ⟨hg, ?_⟩
  intro s _ hne
  rw [hg]
  exact fun he => hne he.symm

theorem C5_witness :
    (((Factory.new.intern "a").1.intern "b").1.getString 1 = "b" ∧
     ((Factory.new.intern "a").1.intern "b").1.id_to_str.length ≤ 2) ∧
    ((Factory.new.intern "a").1.intern "b").1.getString 2 = "<?>" :=
  ⟨⟨rfl, by decide⟩,
   (C5_lookup_out_of_range ((Factory.new.intern "a").1.intern "b").1 2 (by decide)).1⟩

/-! ### Prototype chains -/

/-- length of the prototype chain hanging off an object. -/
def protoDepth : DynObject → Nat
  | .mk _ _ none => 0
  | .mk _ _ (some p) => protoDepth p + 1

/-- the key resolves neither on the object's own shape nor anywhere on its
prototype chain. -/
inductive Unresolvable (f : Factory) (key : Nat) : DynObject → Prop
  | last : ∀ shape values, f.getOffset shape key = none →
      Unresolvable f key (.mk shape values none)
  | step : ∀ shape values p, f.getOffset shape key = none →
      Unresolvable f key p → Unresolvable f key (.mk shape values (some p))

/-- every shape index an object's prototype chain mentions is a live store
index of the factory. -/
inductive ObjWF (f : Factory) : DynObject → Prop
  | last : ∀ shape values, shape < f.shapes.length → ObjWF f (.mk shape values none)
  | step : ∀ shape values p, shape < f.shapes.length → ObjWF f p →
      ObjWF f (.mk shape values (some p))

/-- a key that resolves on the own shape with a typed view obeys the tag
check. -/
theorem get_typed_resolved (f : Factory) (o : DynObject) (k i : Nat) (t : VTag)
    (h : f.getOffset o.shape k = some i) :
    o.get f (Req.typed t) k =
      (if (o.values.getD i Val.empty).tag = some t
       then Except.ok (o.values.getD i Val.empty)
       else Except.error "type mismatch for property") := by
  cases o with
  | mk shape values proto =>
    dsimp only [DynObject.shape] at h
    rw [get_mk, h]
    rfl

/-- an unresolvable key fails with no-such-property for every requested view. -/
theorem get_unresolvable (f : Factory) (key : Nat) (o : DynObject)
    (h : Unresolvable f key o) :
    ∀ r, o.get f r key = Except.error "no such property" := by
  induction h with
  | last shape values hoff =>
    intro r
    rw [get_mk, hoff]
  | step shape values p hoff _ ih =>
    intro r
    rw [get_mk, hoff]
    exact ih r

/-- an `.ok` result of a typed `get` always carries the requested tag (in
particular `get<Method>` can only return a method cell). -/
theorem get_typed_tag (f : Factory) (t : VTag) (key : Nat) :
    ∀ o : DynObject, ∀ cell, o.get f (Req.typed t) key = Except.ok cell →
      cell.tag = some t := by
  have main : ∀ n o, protoDepth o ≤ n → ∀ cell,
      DynObject.get f (Req.typed t) key o = Except.ok cell → cell.tag = some t := by
    intro n
    induction n with
    | zero =>
      intro o hd cell h
      cases o with
      | mk shape values proto =>
        cases proto with
        | some p => simp [protoDepth] at hd
        | none =>
          rw [get_mk] at h
          cases hoff : f.getOffset shape key with
          | some off =>
            rw [hoff] at h
            dsimp only at h
            by_cases htag : (values.getD off Val.empty).tag = some t
            · rw [if_pos htag] at h
              have : values.getD off Val.empty = cell := by injection h
              rw [← this]
              exact htag
            · rw [if_neg htag] at h
              exact Except.noConfusion h
          | none =>
            rw [hoff] at h
            exact Except.noConfusion h
    | succ n ih =>
      intro o hd cell h
      cases o with
      | mk shape values proto =>
        rw [get_mk] at h
        cases hoff : f.getOffset shape key with
        | some off =>
          rw [hoff] at h
          dsimp only at h
          by_cases htag : (values.getD off Val.empty).tag = some t
          · rw [if_pos htag] at h
            have : values.getD off Val.empty = cell := by injection h
            rw [← this]
            exact htag
          · rw [if_neg htag] at h
            exact Except.noConfusion h
        | none =>
          rw [hoff] at h
          cases proto with
          | none => exact Except.noConfusion h
          | some p =>
            have hd' : protoDepth p ≤ n := by
              have : protoDepth (DynObject.mk shape values (some p)) = protoDepth p + 1 := rfl
              omega
            exact ih p hd' cell h
  intro o
  exact main (protoDepth o) o (le_refl _)

/-- an evolved factory resolves exactly like the original on every object
whose chain predates the evolution. -/
theorem get_evolves (f g : Factory) (hE : Evolves f g)
    (hPf : ParentLT f.shapes) (hPg : ParentLT g.shapes)
    (o : DynObject) (hW : ObjWF f o) :
    ∀ r k, o.get g r k = o.get f r k := by
  induction hW with
  | last shape values hsh =>
    intro r k
    rw [get_mk, get_mk, getOffset_evolves f g hE hPf hPg shape hsh k]
  | step shape values p hsh _ ih =>
    intro r k
    rw [get_mk, get_mk, getOffset_evolves f g hE hPf hPg shape hsh k]
    cases hoff : f.getOffset shape k with
    | some off => rfl
    | none =>
      dsimp only
      exact ih r k

/-- a fresh object (root shape, empty values) with any prototype is simulated
by the empty abstract state. -/
theorem sim_fresh (f : Factory) (hf : FactoryInv f) (proto : Option DynObject) :
    Sim f (.mk 0 [] proto) [] := by
  refine ⟨hf, hf.ne, ?_, by simp, rfl, ?_, ?_⟩
  · rw [show (DynObject.mk 0 [] proto).shape = 0 from rfl, pathOf_root f hf]
    rfl
  · rw [show (DynObject.mk 0 [] proto).shape = 0 from rfl]
    unfold Shape.getPropertyCount
    rw [hf.root_offset]
    simp
  · intro i hi
    simp at hi

/-- `set` evolves the factory and preserves its invariant. -/
theorem set_evolves (f : Factory) (o : DynObject) (k : Nat) (v : Val)
    (hf : FactoryInv f) (hsh : o.shape < f.shapes.length) :
    Evolves f (o.set f k v).1 ∧ FactoryInv (o.set f k v).1 := by
  cases o with
  | mk shape values proto =>
    dsimp only [DynObject.shape] at hsh
    cases hoff : f.getOffset shape k with
    | some off =>
      have hset : DynObject.set f k v (DynObject.mk shape values proto) =
          (f, DynObject.mk shape (values.set off v) proto) := by
        simp [DynObject.set, hoff]
      rw [hset]
      exact ⟨evolves_refl f, hf⟩
    | none =>
      have hset : (DynObject.set f k v (DynObject.mk shape values proto)).1 =
          (f.transition shape k).1 := by
        simp [DynObject.set, hoff]
      rw [hset]
      exact ⟨transition_evolves f shape k, transition_inv f shape k hf hsh⟩

/-- C7: when a key resolves to an offset, the untyped view (`T = std::any`)
returns the stored cell as-is and always succeeds, while a typed view `T`
succeeds exactly when the cell's dynamic tag is `T` and otherwise fails with
the type-mismatch error; when the key is unresolvable on the object and its
whole prototype chain (or there is no prototype), `get` fails with the
no-such-property error. -/
theorem C7_typed_untyped_views (f : Factory) (o : DynObject) (k i : Nat) (t : VTag) :
    (f.getOffset o.shape k = some i →
      o.get f Req.anyR k = Except.ok (o.values.getD i Val.empty)) ∧
    (f.getOffset o.shape k = some i → (o.values.getD i Val.empty).tag = some t →
      o.get f (Req.typed t) k = Except.ok (o.values.getD i Val.empty)) ∧
    (f.getOffset o.shape k = some i → (o.values.getD i Val.empty).tag ≠ some t →
      o.get f (Req.typed t) k = Except.error "type mismatch for property") ∧
    (Unresolvable f k o → ∀ r, o.get f r k = Except.error "no such property") := by
  refine ⟨?_, ?_, ?_, ?_⟩
  · intro h
    exact get_any_resolved f o k i h
  · intro h htag
    rw [get_typed_resolved f o k i t h, if_pos htag]
  · intro h htag
    rw [get_typed_resolved f o k i t h, if_neg htag]
  · exact get_unresolvable f k o

theorem C7_witness :
    ((runSets Factory.new Factory.createObject [(0, Val.vInt 7)]).2.get
      (runSets Factory.new Factory.createObject [(0, Val.vInt 7)]).1 Req.anyR 0 =
      Except.ok (Val.vInt 7)) ∧
    ((runSets Factory.new Factory.createObject [(0, Val.vInt 7)]).2.get
      (runSets Factory.new Factory.createObject [(0, Val.vInt 7)]).1
        (Req.typed VTag.tInt) 0 = Except.ok (Val.vInt 7)) ∧
    ((runSets Factory.new Factory.createObject [(0, Val.vInt 7)]).2.get
      (runSets Factory.new Factory.createObject [(0, Val.vInt 7)]).1
        (Req.typed VTag.tStr) 0 = Except.error "type mismatch for property") ∧
    ((DynObject.mk 0 [] none).get Factory.new Req.anyR 5 =
      Except.error "no such property") :=
  ⟨(C7_typed_untyped_views (runSets Factory.new Factory.createObject [(0, Val.vInt 7)]).1
      (runSets Factory.new Factory.createObject [(0, Val.vInt 7)]).2 0 0 VTag.tInt).1 rfl,
   (C7_typed_untyped_views (runSets Factory.new Factory.createObject [(0, Val.vInt 7)]).1
      (runSets Factory.new Factory.createObject [(0, Val.vInt 7)]).2 0 0 VTag.tInt).2.1
      rfl rfl,
   (C7_typed_untyped_views (runSets Factory.new Factory.createObject [(0, Val.vInt 7)]).1
      (runSets Factory.new Factory.createObject [(0, Val.vInt 7)]).2 0 0 VTag.tStr).2.2.1
      rfl (by decide),
   (C7_typed_untyped_views Factory.new (DynObject.mk 0 [] none) 5 0 VTag.tInt).2.2.2
      (Unresolvable.last 0 [] rfl) Req.anyR⟩

/-- C6: `get` on an object with a prototype resolves own properties first and
falls back to the prototype (recursively, via the prototype's own `get`) only
when the key is not resolvable on the own shape; after the child subsequently
sets the same key, the child returns its own value while the prototype object
answers exactly as before (shadowing). -/
theorem C6_prototype_shadowing (f : Factory) (o p : DynObject) (m : List (Nat × Val))
    (k : Nat) (v : Val) (r : Req) (i : Nat) :
    (o.prototype = some p → f.getOffset o.shape k = none →
      o.get f r k = p.get f r k) ∧
    (f.getOffset o.shape k = some i →
      o.get f Req.anyR k = Except.ok (o.values.getD i Val.empty)) ∧
    (Sim f o m → ObjWF f p → (k ∉ m.map Prod.fst → m.length < SENTINEL) →
      (o.set f k v).2.get (o.set f k v).1 Req.anyR k = Except.ok v ∧
      (o.set f k v).2.prototype = o.prototype ∧
      (∀ r' k', p.get (o.set f k v).1 r' k' = p.get f r' k')) := by
  refine ⟨?_, ?_, ?_⟩
  · intro hp hoff
    cases o with
    | mk shape values proto =>
      have hps : proto = some p := hp
      subst hps
      dsimp only [DynObject.shape] at hoff
      rw [get_mk, hoff]
  · intro h
    exact get_any_resolved f o k i h
  · intro hS hW hb
    obtain ⟨hS', hEv, hproto, -⟩ := set_sim f o m k v hS hb
    obtain ⟨hf', hsh', hpath', hnd', hvlen', hcnt', hix'⟩ := hS'
    obtain ⟨j, hj, he⟩ := updAssoc_entry m k v
    have hoffj := (hix' j hj).1
    rw [he] at hoffj
    have hvalj := (hix' j hj).2
    rw [he] at hvalj
    refine ⟨?_, hproto, ?_⟩
    · rw [get_any_resolved _ _ k j hoffj, hvalj]
    · intro r' k'
      obtain ⟨hSf, -, -, -, -, -, -⟩ := hS
      exact get_evolves f (o.set f k v).1 hEv hSf.parent_lt hf'.parent_lt p hW r' k'

theorem C6_witness :
    ((DynObject.mk 0 [] (some (runSets Factory.new Factory.createObject
        [(0, Val.vStr "P")]).2)).get
      (runSets Factory.new Factory.createObject [(0, Val.vStr "P")]).1 Req.anyR 0 =
      (runSets Factory.new Factory.createObject [(0, Val.vStr "P")]).2.get
        (runSets Factory.new Factory.createObject [(0, Val.vStr "P")]).1 Req.anyR 0) ∧
    (((DynObject.mk 0 [] (some (runSets Factory.new Factory.createObject
          [(0, Val.vStr "P")]).2)).set
        (runSets Factory.new Factory.createObject [(0, Val.vStr "P")]).1 0
        (Val.vStr "C")).2.get
      ((DynObject.mk 0 [] (some (runSets Factory.new Factory.createObject
          [(0, Val.vStr "P")]).2)).set
        (runSets Factory.new Factory.createObject [(0, Val.vStr "P")]).1 0
        (Val.vStr "C")).1 Req.anyR 0 = Except.ok (Val.vStr "C")) ∧
    ((runSets Factory.new Factory.createObject [(0, Val.vStr "P")]).2.get
      ((DynObject.mk 0 [] (some (runSets Factory.new Factory.createObject
          [(0, Val.vStr "P")]).2)).set
        (runSets Factory.new Factory.createObject [(0, Val.vStr "P")]).1 0
        (Val.vStr "C")).1 Req.anyR 0 =
      (runSets Factory.new Factory.createObject [(0, Val.vStr "P")]).2.get
        (runSets Factory.new Factory.createObject [(0, Val.vStr "P")]).1 Req.anyR 0) :=
  ⟨(C6_prototype_shadowing
      (runSets Factory.new Factory.createObject [(0, Val.vStr "P")]).1
      (DynObject.mk 0 [] (some (runSets Factory.new Factory.createObject
        [(0, Val.vStr "P")]).2))
      (runSets Factory.new Factory.createObject [(0, Val.vStr "P")]).2
      [] 0 (Val.vStr "C") Req.anyR 0).1 rfl rfl,
   ((C6_prototype_shadowing
      (runSets Factory.new Factory.createObject [(0, Val.vStr "P")]).1
      (DynObject.mk 0 [] (some (runSets Factory.new Factory.createObject
        [(0, Val.vStr "P")]).2))
      (runSets Factory.new Factory.createObject [(0, Val.vStr "P")]).2
      [] 0 (Val.vStr "C") Req.anyR 0).2.2
      (sim_fresh (runSets Factory.new Factory.createObject [(0, Val.vStr "P")]).1
        (runSets_sim [(0, Val.vStr "P")] Factory.new Factory.createObject []
          (sim_createObject Factory.new factoryInv_new) (by decide)).1.1
        (some (runSets Factory.new Factory.createObject [(0, Val.vStr "P")]).2))
      (ObjWF.last 1 [Val.vStr "P"]
        (by decide : (1 : Nat) < (runSets Factory.new Factory.createObject
          [(0, Val.vStr "P")]).1.shapes.length))
      (fun _ => by decide)).1,
   ((C6_prototype_shadowing
      (runSets Factory.new Factory.createObject [(0, Val.vStr "P")]).1
      (DynObject.mk 0 [] (some (runSets Factory.new Factory.createObject
        [(0, Val.vStr "P")]).2))
      (runSets Factory.new Factory.createObject [(0, Val.vStr "P")]).2
      [] 0 (Val.vStr "C") Req.anyR 0).2.2
      (sim_fresh (runSets Factory.new Factory.createObject [(0, Val.vStr "P")]).1
        (runSets_sim [(0, Val.vStr "P")] Factory.new Factory.createObject []
          (sim_createObject Factory.new factoryInv_new) (by decide)).1.1
        (some (runSets Factory.new Factory.createObject [(0, Val.vStr "P")]).2))
      (ObjWF.last 1 [Val.vStr "P"]
        (by decide : (1 : Nat) < (runSets Factory.new Factory.createObject
          [(0, Val.vStr "P")]).1.shapes.length))
      (fun _ => by decide)).2.2 Req.anyR 0⟩

/-- C8: `call<R>` resolves the name as a callable via `get<Method>`; a failed
resolution (including a property that exists but is not callable, which
surfaces as the type-mismatch error) propagates the error unchanged; on a
successful resolution it invokes the method with `(self, args)`, and the
untyped request passes the result through while a typed request `R` succeeds
exactly when the returned value's tag is `R` and otherwise fails with the
method-return-type-mismatch error. -/
theorem C8_call_discipline (f : Factory) (o : DynObject) (name : Nat)
    (args : List Val) (t : VTag) (e : String) (m : MCode) (i : Nat) :
    (o.get f (Req.typed VTag.tMethod) name = Except.error e →
      ∀ r, o.call f r name args = (Except.error e, f, o)) ∧
    (f.getOffset o.shape name = some i →
      (o.values.getD i Val.empty).tag ≠ some VTag.tMethod →
      ∀ r, o.call f r name args = (Except.error "type mismatch for property", f, o)) ∧
    (o.get f (Req.typed VTag.tMethod) name = Except.ok (Val.vMethod m) →
      o.call f Req.anyR name args =
        (Except.ok (runMethod f o args m).1,
         (runMethod f o args m).2.1, (runMethod f o args m).2.2)) ∧
    (o.get f (Req.typed VTag.tMethod) name = Except.ok (Val.vMethod m) →
      (runMethod f o args m).1.tag ≠ some t →
      o.call f (Req.typed t) name args =
        (Except.error "type mismatch for method return value",
         (runMethod f o args m).2.1, (runMethod f o args m).2.2)) ∧
    (o.get f (Req.typed VTag.tMethod) name = Except.ok (Val.vMethod m) →
      (runMethod f o args m).1.tag = some t →
      o.call f (Req.typed t) name args =
        (Except.ok (runMethod f o args m).1,
         (runMethod f o args m).2.1, (runMethod f o args m).2.2)) := by
  refine ⟨?_, ?_, ?_, ?_, ?_⟩
  · intro hget r
    simp [DynObject.call, hget]
  · intro hoff htag r
    have hget : o.get f (Req.typed VTag.tMethod) name =
        Except.error "type mismatch for property" := by
      rw [get_typed_resolved f o name i VTag.tMethod hoff, if_neg htag]
    simp [DynObject.call, hget]
  · intro hget
    simp [DynObject.call, hget]
  · intro hget htag
    simp [DynObject.call, hget, htag]
  · intro hget htag
    simp [DynObject.call, hget, htag]

theorem C8_witness :
    ((runSets Factory.new Factory.createObject
        [(0, Val.vInt 7), (1, Val.vMethod (MCode.ret (Val.vStr "hi")))]).2.call
      (runSets Factory.new Factory.createObject
        [(0, Val.vInt 7), (1, Val.vMethod (MCode.ret (Val.vStr "hi")))]).1
      Req.anyR 0 [] =
      (Except.error "type mismatch for property",
       (runSets Factory.new Factory.createObject
        [(0, Val.vInt 7), (1, Val.vMethod (MCode.ret (Val.vStr "hi")))]).1,
       (runSets Factory.new Factory.createObject
        [(0, Val.vInt 7), (1, Val.vMethod (MCode.ret (Val.vStr "hi")))]).2)) ∧
    ((runSets Factory.new Factory.createObject
        [(0, Val.vInt 7), (1, Val.vMethod (MCode.ret (Val.vStr "hi")))]).2.call
      (runSets Factory.new Factory.createObject
        [(0, Val.vInt 7), (1, Val.vMethod (MCode.ret (Val.vStr "hi")))]).1
      Req.anyR 1 [] =
      (Except.ok (Val.vStr "hi"),
       (runSets Factory.new Factory.createObject
        [(0, Val.vInt 7), (1, Val.vMethod (MCode.ret (Val.vStr "hi")))]).1,
       (runSets Factory.new Factory.createObject
        [(0, Val.vInt 7), (1, Val.vMethod (MCode.ret (Val.vStr "hi")))]).2)) ∧
    ((runSets Factory.new Factory.createObject
        [(0, Val.vInt 7), (1, Val.vMethod (MCode.ret (Val.vStr "hi")))]).2.call
      (runSets Factory.new Factory.createObject
        [(0, Val.vInt 7), (1, Val.vMethod (MCode.ret (Val.vStr "hi")))]).1
      (Req.typed VTag.tInt) 1 [] =
      (Except.error "type mismatch for method return value",
       (runSets Factory.new Factory.createObject
        [(0, Val.vInt 7), (1, Val.vMethod (MCode.ret (Val.vStr "hi")))]).1,
       (runSets Factory.new Factory.createObject
        [(0, Val.vInt 7), (1, Val.vMethod (MCode.ret (Val.vStr "hi")))]).2)) ∧
    ((runSets Factory.new Factory.createObject
        [(0, Val.vInt 7), (1, Val.vMethod (MCode.ret (Val.vStr "hi")))]).2.call
      (runSets Factory.new Factory.createObject
        [(0, Val.vInt 7), (1, Val.vMethod (MCode.ret (Val.vStr "hi")))]).1
      (Req.typed VTag.tStr) 1 [] =
      (Except.ok (Val.vStr "hi"),
       (runSets Factory.new Factory.createObject
        [(0, Val.vInt 7), (1, Val.vMethod (MCode.ret (Val.vStr "hi")))]).1,
       (runSets Factory.new Factory.createObject
        [(0, Val.vInt 7), (1, Val.vMethod (MCode.ret (Val.vStr "hi")))]).2)) :=
  ⟨(C8_call_discipline (runSets Factory.new Factory.createObject
        [(0, Val.vInt 7), (1, Val.vMethod (MCode.ret (Val.vStr "hi")))]).1
      (runSets Factory.new Factory.createObject
        [(0, Val.vInt 7), (1, Val.vMethod (MCode.ret (Val.vStr "hi")))]).2
      0 [] VTag.tInt "type mismatch for property"
      (MCode.ret (Val.vStr "hi")) 0).1 rfl Req.anyR,
   (C8_call_discipline (runSets Factory.new Factory.createObject
        [(0, Val.vInt 7), (1, Val.vMethod (MCode.ret (Val.vStr "hi")))]).1
      (runSets Factory.new Factory.createObject
        [(0, Val.vInt 7), (1, Val.vMethod (MCode.ret (Val.vStr "hi")))]).2
      1 [] VTag.tInt "x" (MCode.ret (Val.vStr "hi")) 0).2.2.1 rfl,
   (C8_call_discipline (runSets Factory.new Factory.createObject
        [(0, Val.vInt 7), (1, Val.vMethod (MCode.ret (Val.vStr "hi")))]).1
      (runSets Factory.new Factory.createObject
        [(0, Val.vInt 7), (1, Val.vMethod (MCode.ret (Val.vStr "hi")))]).2
      1 [] VTag.tInt "x" (MCode.ret (Val.vStr "hi")) 0).2.2.2.1 rfl (by decide),
   (C8_call_discipline (runSets Factory.new Factory.createObject
        [(0, Val.vInt 7), (1, Val.vMethod (MCode.ret (Val.vStr "hi")))]).1
      (runSets Factory.new Factory.createObject
        [(0, Val.vInt 7), (1, Val.vMethod (MCode.ret (Val.vStr "hi")))]).2
      1 [] VTag.tStr "x" (MCode.ret (Val.vStr "hi")) 0).2.2.2.2 rfl (by decide)⟩

/-! ### Shape identity across objects (the transitions cache) -/

/-- running a list of fresh additions on an object: the factory invariant is
kept, the factory only evolves, the final shape's insertion history extends
the starting shape's by the added keys, and — structural sharing — rerunning
any operation list with the same keys from an object at the same starting
shape on the final factory is a pure cache walk: it changes nothing and ends
at the *same* shape index. -/
theorem runSets_adds (ops : List (Nat × Val)) :
    ∀ f (o : DynObject),
      FactoryInv f → o.shape < f.shapes.length →
      (f.pathOf o.shape ++ ops.map Prod.fst).Nodup →
      FactoryInv (runSets f o ops).1 ∧
      Evolves f (runSets f o ops).1 ∧
      (runSets f o ops).2.shape < (runSets f o ops).1.shapes.length ∧
      (runSets f o ops).1.pathOf (runSets f o ops).2.shape =
        f.pathOf o.shape ++ ops.map Prod.fst ∧
      (∀ ops₂ : List (Nat × Val), ∀ o₂ : DynObject,
        o₂.shape = o.shape → ops₂.map Prod.fst = ops.map Prod.fst →
        (runSets (runSets f o ops).1 o₂ ops₂).1 = (runSets f o ops).1 ∧
        (runSets (runSets f o ops).1 o₂ ops₂).2.shape = (runSets f o ops).2.shape) := by
  induction ops with
  | nil =>
    intro f o hf hs hnd
    refine ⟨hf, evolves_refl f, hs, by simp [runSets], ?_⟩
    intro ops₂ o₂ hsh₂ hk2
    have h2 : ops₂ = [] := List.map_eq_nil_iff.mp hk2
    subst h2
    exact ⟨rfl, hsh₂⟩
  | cons p rest ih =>
    obtain ⟨k, v⟩ := p
    intro f o hf hs hnd
    cases o with
    | mk s values proto =>
    rw [show (DynObject.mk s values proto).shape = s from rfl] at hs hnd ⊢
    simp only [List.map_cons] at hnd ⊢
    have hknp : k ∉ f.pathOf s := by
      intro hmem
      have hdisj := (List.nodup_append.mp hnd).2.2
      exact hdisj hmem (by simp)
    have hoff : f.getOffset s k = none :=
      (getOffset_none_iff f hf.parent_lt s k).mpr hknp
    have hset1 : (DynObject.set f k v (DynObject.mk s values proto)).1 =
        (f.transition s k).1 := by
      simp [DynObject.set, hoff]
    have hset2 : (DynObject.set f k v (DynObject.mk s values proto)).2.shape =
        (f.transition s k).2 := by
      simp [DynObject.set, hoff, DynObject.shape]
    have hrunEq : runSets f (DynObject.mk s values proto) ((k, v) :: rest) =
        runSets (DynObject.set f k v (DynObject.mk s values proto)).1
          (DynObject.set f k v (DynObject.mk s values proto)).2 rest := rfl
    rw [hrunEq]
    obtain ⟨hlt', hpar', hkey', hoff', hcache'⟩ := transition_res f s k hf hs
    have hInv' : FactoryInv (f.transition s k).1 := transition_inv f s k hf hs
    have hEv' : Evolves f (f.transition s k).1 := transition_evolves f s k
    have hpath' : (f.transition s k).1.pathOf (f.transition s k).2 =
        f.pathOf s ++ [k] := by
      rw [pathOf_eq _ hInv'.parent_lt, hpar']
      dsimp only
      rw [hkey', pathOf_evolves f _ hEv' hf.parent_lt hInv'.parent_lt s hs]
    have hInvS : FactoryInv (DynObject.set f k v (DynObject.mk s values proto)).1 := by
      rw [hset1]; exact hInv'
    have hEvS : Evolves f (DynObject.set f k v (DynObject.mk s values proto)).1 := by
      rw [hset1]; exact hEv'
    obtain ⟨hfF, hEvF, hshF, hpathF, hrerun⟩ :=
      ih (DynObject.set f k v (DynObject.mk s values proto)).1
        (DynObject.set f k v (DynObject.mk s values proto)).2
        hInvS
        (by rw [hset1, hset2]; exact hlt')
        (by rw [hset1, hset2, hpath', List.append_assoc]; exact hnd)
    refine ⟨hfF, evolves_trans hEvS hEvF, hshF, ?_, ?_⟩
    · rw [hpathF, hset1, hset2, hpath', List.append_assoc]
      rfl
    · intro ops₂ o₂ hsh₂ hk2
      cases ops₂ with
      | nil => simp at hk2
      | cons q rest₂ =>
        obtain ⟨k₂, w⟩ := q
        simp only [List.map_cons, List.cons.injEq] at hk2
        obtain ⟨hk₂k, hrest₂⟩ := hk2
        have hk2k := hk₂k.symm
        subst hk2k
        cases o₂ with
        | mk s₂ values₂ proto₂ =>
        rw [show (DynObject.mk s₂ values₂ proto₂).shape = s₂ from rfl] at hsh₂
        have hs2s := hsh₂.symm
        subst hs2s
        -- the rerun's first `set` is a pure cache hit on the final factory
        have hoffF : (runSets (DynObject.set f k v (DynObject.mk s values proto)).1
            (DynObject.set f k v (DynObject.mk s values proto)).2 rest).1.getOffset
            s k = none := by
          rw [getOffset_evolves f _ (evolves_trans hEvS hEvF) hf.parent_lt
            hfF.parent_lt s hs k]
          exact hoff
        have hcacheS : (((DynObject.set f k v (DynObject.mk s values proto)).1.shapeAt
            s).transitions.lookup k) = some (f.transition s k).2 := by
          rw [hset1]; exact hcache'
        have hsS : s < (DynObject.set f k v
            (DynObject.mk s values proto)).1.shapes.length := by
          rw [hset1]; exact lt_of_lt_of_le hs hEv'.1
        have hcacheF : (((runSets (DynObject.set f k v (DynObject.mk s values proto)).1
            (DynObject.set f k v (DynObject.mk s values proto)).2 rest).1.shapeAt
            s).transitions.lookup k) = some (f.transition s k).2 :=
          hEvF.2.2 s k (f.transition s k).2 hsS hcacheS
        have htrF : (runSets (DynObject.set f k v (DynObject.mk s values proto)).1
            (DynObject.set f k v (DynObject.mk s values proto)).2 rest).1.transition
            s k = ((runSets (DynObject.set f k v (DynObject.mk s values proto)).1
              (DynObject.set f k v (DynObject.mk s values proto)).2 rest).1,
              (f.transition s k).2) :=
          transition_hit _ s k (f.transition s k).2 hcacheF
        generalize hGF : (runSets (DynObject.set f k v (DynObject.mk s values proto)).1
            (DynObject.set f k v (DynObject.mk s values proto)).2 rest).1 = F
          at hoffF htrF hrerun ⊢
        have hsetF1 : (DynObject.set F k w (DynObject.mk s values₂ proto₂)).1 = F := by
          simp [DynObject.set, hoffF, htrF]
        have hsetF2 : (DynObject.set F k w (DynObject.mk s values₂ proto₂)).2.shape =
            (f.transition s k).2 := by
          simp [DynObject.set, hoffF, htrF, DynObject.shape]
        obtain ⟨hre1, hre2⟩ := hrerun rest₂
          (DynObject.set F k w (DynObject.mk s values₂ proto₂)).2
          (by rw [hsetF2, hset2]) hrest₂
        constructor
        · show (runSets
            (DynObject.set F k w (DynObject.mk s values₂ proto₂)).1
            (DynObject.set F k w (DynObject.mk s values₂ proto₂)).2 rest₂).1 = _
          rw [hsetF1]
          exact hre1
        · show (runSets
            (DynObject.set F k w (DynObject.mk s values₂ proto₂)).1
            (DynObject.set F k w (DynObject.mk s values₂ proto₂)).2 rest₂).2.shape = _
          rw [hsetF1]
          exact hre2

/-- C2: two objects created from the same factory that perform the same
sequence of distinct property additions in the same order end at the same
shape instance (the identical store index; the second run changes nothing,
walking the transitions cache), while a third object adding key sequences
that differ (e.g. a different order of the same identifiers) ends at a shape
that is NOT identical to the first object's. -/
theorem C2_shape_identity (f₀ : Factory) (hf : FactoryInv f₀)
    (ops ops₂ ops₃ : List (Nat × Val))
    (hk2 : ops₂.map Prod.fst = ops.map Prod.fst)
    (hnd : (ops.map Prod.fst).Nodup)
    (hnd3 : (ops₃.map Prod.fst).Nodup)
    (hne : ops₃.map Prod.fst ≠ ops.map Prod.fst) :
    (runSets (runSets f₀ Factory.createObject ops).1 Factory.createObject ops₂).1 =
      (runSets f₀ Factory.createObject ops).1 ∧
    (runSets (runSets f₀ Factory.createObject ops).1 Factory.createObject ops₂).2.shape =
      (runSets f₀ Factory.createObject ops).2.shape ∧
    (runSets (runSets (runSets f₀ Factory.createObject ops).1 Factory.createObject ops₂).1
      Factory.createObject ops₃).2.shape ≠
      (runSets f₀ Factory.createObject ops).2.shape := by
  have hsh0 : Factory.createObject.shape < f₀.shapes.length := hf.ne
  have hnd0 : (f₀.pathOf Factory.createObject.shape ++ ops.map Prod.fst).Nodup := by
    rw [show Factory.createObject.shape = 0 from rfl, pathOf_root f₀ hf]
    simpa using hnd
  obtain ⟨hfA, hEvA, hshA, hpathA, hrerunA⟩ :=
    runSets_adds ops f₀ Factory.createObject hf hsh0 hnd0
  obtain ⟨hB1, hB2⟩ := hrerunA ops₂ Factory.createObject rfl hk2
  refine ⟨hB1, hB2, ?_⟩
  rw [hB1]
  have hndC : ((runSets f₀ Factory.createObject ops).1.pathOf
      Factory.createObject.shape ++ ops₃.map Prod.fst).Nodup := by
    rw [show Factory.createObject.shape = 0 from rfl,
      pathOf_root (runSets f₀ Factory.createObject ops).1 hfA]
    simpa using hnd3
  obtain ⟨hfC, hEvC, hshC, hpathC, -⟩ :=
    runSets_adds ops₃ (runSets f₀ Factory.createObject ops).1 Factory.createObject
      hfA hfA.ne hndC
  intro heq
  have hCpath : (runSets (runSets f₀ Factory.createObject ops).1
      Factory.createObject ops₃).1.pathOf
      (runSets (runSets f₀ Factory.createObject ops).1
        Factory.createObject ops₃).2.shape = ops₃.map Prod.fst := by
    rw [hpathC, show Factory.createObject.shape = 0 from rfl,
      pathOf_root (runSets f₀ Factory.createObject ops).1 hfA]
    rfl
  have hApath : (runSets (runSets f₀ Factory.createObject ops).1
      Factory.createObject ops₃).1.pathOf
      (runSets f₀ Factory.createObject ops).2.shape = ops.map Prod.fst := by
    rw [pathOf_evolves (runSets f₀ Factory.createObject ops).1 _ hEvC
      hfA.parent_lt hfC.parent_lt (runSets f₀ Factory.createObject ops).2.shape hshA]
    rw [hpathA, show Factory.createObject.shape = 0 from rfl, pathOf_root f₀ hf]
    rfl
  rw [heq, hApath] at hCpath
  exact hne hCpath.symm

theorem C2_witness :
    (runSets (runSets Factory.new Factory.createObject
        [(0, Val.vInt 1), (1, Val.vInt 2), (2, Val.vInt 3)]).1 Factory.createObject
        [(0, Val.vInt 4), (1, Val.vInt 5), (2, Val.vInt 6)]).1 =
      (runSets Factory.new Factory.createObject
        [(0, Val.vInt 1), (1, Val.vInt 2), (2, Val.vInt 3)]).1 ∧
    (runSets (runSets Factory.new Factory.createObject
        [(0, Val.vInt 1), (1, Val.vInt 2), (2, Val.vInt 3)]).1 Factory.createObject
        [(0, Val.vInt 4), (1, Val.vInt 5), (2, Val.vInt 6)]).2.shape =
      (runSets Factory.new Factory.createObject
        [(0, Val.vInt 1), (1, Val.vInt 2), (2, Val.vInt 3)]).2.shape ∧
    (runSets (runSets (runSets Factory.new Factory.createObject
        [(0, Val.vInt 1), (1, Val.vInt 2), (2, Val.vInt 3)]).1 Factory.createObject
        [(0, Val.vInt 4), (1, Val.vInt 5), (2, Val.vInt 6)]).1 Factory.createObject
        [(0, Val.vInt 7), (2, Val.vInt 8), (1, Val.vInt 9)]).2.shape ≠
      (runSets Factory.new Factory.createObject
        [(0, Val.vInt 1), (1, Val.vInt 2), (2, Val.vInt 3)]).2.shape :=
  C2_shape_identity Factory.new factoryInv_new
    [(0, Val.vInt 1), (1, Val.vInt 2), (2, Val.vInt 3)]
    [(0, Val.vInt 4), (1, Val.vInt 5), (2, Val.vInt 6)]
    [(0, Val.vInt 7), (2, Val.vInt 8), (1, Val.vInt 9)]
    (by decide) (by decide) (by decide) (by decide)

end DynObj
